import Mathlib

/-!
Face recognition registry: matcher, loader, watcher and recognition on a frame.

A shallow embedding of `src/src/facerecognition.cpp` (with `src/include/helper.hpp`).

* Similarity scores are rationals.  `face_recognizer->match` returns a `double`; the
  narrowing `float(score)` that the source applies before storing a score is kept as the
  explicit function `toFloat` of the recogniser.
* `featuresMap` (an `unordered_map`) is an association list.  The matcher reads the order
  of the list as the iteration order of the map and its theorems hold for every order;
  the loader adds a new key at the end, and its theorems are stated up to permutation or
  in the order of processing.
* The object state is passed explicitly; a call ends in an `Outcome`: it returns, the
  process exits (`std::exit`), or an exception leaves the call.
* Paths are strings in normal form: `dbPath.empty()` is equality with the empty string and
  the comparison of two paths is equality of strings.
* `MatchResults` is taken as `facerecognition.cpp` uses it: its `bestmatch` is a
  `MatchResult`.
-/

namespace FaceRec

/-! ## Data model -/

/-- The load status enumeration `dbLoadStatus` of `facerecognition.hpp`. -/
inductive dbLoadStatus where
  | NOT_LOADED
  | LOADING
  | LOADED
  deriving DecidableEq, Repr

/-- One match result: an identity name and a single precision score. -/
structure MatchResult where
  name : String
  score : ℚ
  deriving DecidableEq, Repr

/-- All match results of one query: the per-embedding list and the best match. -/
structure MatchResults where
  results : List MatchResult
  bestmatch : MatchResult
  deriving DecidableEq, Repr

/-- The recogniser as the matcher uses it: `matchScore a b` is the `double` returned by
`face_recognizer->match(a, b, FR_COSINE)` and `toFloat` is the conversion `float(score)`. -/
structure Recognizer (Emb : Type) where
  matchScore : Emb → Emb → ℚ
  toFloat : ℚ → ℚ

/-! ## The matcher -/

/-- Body of the inner loop of `findBestMatch` (lines 186-193): score one stored feature,
record it, and replace the running best when the score is strictly above both the running
best score and the threshold. -/
def matchStep {Emb : Type} (R : Recognizer Emb) (faceFeature : Emb) (threshold : ℚ)
    (personName : String) (acc : MatchResults) (feat : Emb) : MatchResults :=
  let score := R.matchScore faceFeature feat
  let results := acc.results ++ [⟨personName, R.toFloat score⟩]
  if score > acc.bestmatch.score ∧ score > threshold then
    ⟨results, ⟨personName, R.toFloat score⟩⟩
  else
    ⟨results, acc.bestmatch⟩

/-- The function `FaceRecognition::findBestMatch` (lines 179-197): the outer loop runs over the
registry in iteration order, the inner loop over the features of one identity. -/
def findBestMatch {Emb : Type} (R : Recognizer Emb) (featuresMap : List (String × List Emb))
    (faceFeature : Emb) (threshold : ℚ) : MatchResults :=
  featuresMap.foldl
    (fun acc pair => pair.2.foldl (matchStep R faceFeature threshold pair.1) acc)
    ⟨[], ⟨"Unknown", 0⟩⟩

/-- The scores of the scenario of the specification: `e1`, `e2`, `e3` are the embeddings
`1`, `2`, `3` and score `0.8`, `0.5`, `0.9` against any query; every score is kept by the
narrowing. -/
def scenarioRecognizer : Recognizer Nat where
  matchScore := fun _ e => if e = 1 then 8 / 10 else if e = 2 then 5 / 10 else 9 / 10
  toFloat := fun x => x

/-- The registry of the scenario of the specification: alice holds `e1`, bob holds `e2`
and `e3`. -/
def scenarioRegistry : List (String × List Nat) :=
  [("alice", [1]), ("bob", [2, 3])]

/-- The stored embeddings of a registry in iteration order, each with the name of the
identity that holds it: the order in which the two nested loops of `findBestMatch` visit
them. -/
def storedEntries {Emb : Type} (featuresMap : List (String × List Emb)) : List (String × Emb) :=
  featuresMap.flatMap (fun pair => pair.2.map (fun feat => (pair.1, feat)))

/-- The loop body of `findBestMatch` run over a flat list of (identity, feature) pairs. -/
def matchFold {Emb : Type} (R : Recognizer Emb) (faceFeature : Emb) (threshold : ℚ)
    (acc : MatchResults) (l : List (String × Emb)) : MatchResults :=
  l.foldl (fun a x => matchStep R faceFeature threshold x.1 a x.2) acc

/-- A recogniser under which every stored embedding scores `-1/2`; every score is kept by
the narrowing. -/
def negativeRecognizer : Recognizer Nat where
  matchScore := fun _ _ => -1 / 2
  toFloat := fun x => x

/-- A recogniser for scores just below `1`: embedding `1` scores `1 - 2^-30`, every other
embedding scores `1 - 2^-31`.  Both are `double` values, and round-to-nearest narrowing to
single precision sends both to `1` (the neighbouring single precision values are
`1 - 2^-24` and `1`). -/
def nearOneRecognizer : Recognizer Nat where
  matchScore := fun _ e => if e = 1 then 1 - 1 / 2 ^ 30 else 1 - 1 / 2 ^ 31
  toFloat := fun x => if x = 1 - 1 / 2 ^ 30 ∨ x = 1 - 1 / 2 ^ 31 then 1 else x

/-- A recogniser under which every stored embedding scores `1/2 + 2^-30`, a `double` value
that round-to-nearest narrowing to single precision sends to `1/2` (the neighbouring single
precision values are `1/2` and `1/2 + 2^-24`). -/
def tiedRecognizer : Recognizer Nat where
  matchScore := fun _ _ => 1 / 2 + 1 / 2 ^ 30
  toFloat := fun x => if x = 1 / 2 + 1 / 2 ^ 30 then 1 / 2 else x

/-- A registry with one embedding for alice and one for bob. -/
def pairRegistry : List (String × List Nat) :=
  [("alice", [1]), ("bob", [2])]

/-! ## Outcomes, filesystem and object state -/

/-- How a call ends: it returns to its caller, the process is terminated by `std::exit`, or
an exception leaves the call.  Each case carries the object state at that moment. -/
inductive Outcome (σ : Type) where
  | returned (s : σ)
  | exited (code : Nat) (s : σ)
  | thrown (s : σ)
  deriving DecidableEq, Repr

/-- An entry of an identity subdirectory as the inner `directory_iterator` yields it: a
non-directory with its file name and the result of `imread` (`none` for the empty `Mat` of
an unreadable file), or a nested directory. -/
inductive ImageEntry (Img : Type) where
  | file (filename : String) (decoded : Option Img)
  | directory (filename : String)
  deriving DecidableEq, Repr

/-- An entry of the root folder as the outer `directory_iterator` yields it: a directory with
its name and what iterating it yields (`none` when that iteration throws), or a
non-directory. -/
inductive RootEntry (Img : Type) where
  | directory (filename : String) (content : Option (List (ImageEntry Img)))
  | file (filename : String)
  deriving DecidableEq, Repr

/-- The file name of a root entry. -/
def RootEntry.name {Img : Type} : RootEntry Img → String
  | .directory filename _ => filename
  | .file filename => filename

/-- One entry visited by `recursive_directory_iterator`. -/
structure ScanEntry where
  is_regular_file : Bool
  last_write_time : Int
  deriving DecidableEq, Repr

/-- What a recursive scan of a tree yields: the entries visited, and whether the iteration
ended with a filesystem exception after them. -/
structure Scan where
  visited : List ScanEntry
  failed : Bool
  deriving DecidableEq, Repr

/-- The filesystem as the program observes it at the time of a call. -/
structure FileSystem (Img : Type) where
  listing : String → Option (List (RootEntry Img))
  scan : String → Scan

/-- The detection and embedding models: whether the detector pointer is set, and the
features of the faces found in a decoded frame (resize, detect, align, embed). -/
structure Vision (Img Emb : Type) where
  detector : Bool
  faceFeatures : Img → List Emb

/-- Calls that leave the object: they are recorded in the order in which they are made.
An `imwrite` is labelled with the path of the image whose `_visualize` sibling is
written. -/
inductive Event where
  | directory_iterator (path : String)
  | imread (path : String)
  | extractFeatures (path : String)
  | imwrite (path : String)
  | getLatestModTime (path : String)
  | thread
  deriving DecidableEq, Repr

/-- The members of class `FaceRecognition` that the loader and the watcher use, with two
ghost fields: `trace`, the calls made so far, and `featuresMapLog`, the value of
`featuresMap` after each write to it. -/
structure FaceRecognition (Emb : Type) where
  isDBLoaded : dbLoadStatus
  featuresMap : List (String × List Emb)
  dbPath : String
  lastModTime : Int
  watcherRunning : Bool
  checkInterval : Int
  trace : List Event
  featuresMapLog : List (List (String × List Emb))
  deriving DecidableEq, Repr

/-- Record a call in the trace. -/
def FaceRecognition.record {Emb : Type} (s : FaceRecognition Emb) (e : Event) :
    FaceRecognition Emb :=
  { s with trace := s.trace ++ [e] }

/-- Write the registry, logging the new value. -/
def FaceRecognition.setFeaturesMap {Emb : Type} (s : FaceRecognition Emb)
    (m : List (String × List Emb)) : FaceRecognition Emb :=
  { s with featuresMap := m, featuresMapLog := s.featuresMapLog ++ [m] }

/-- The assignment `featuresMap[key] = value`: the value of an existing key is replaced, a
new key is added (the list keeps the order of insertion). -/
def mapAssign {Emb : Type} (m : List (String × List Emb)) (key : String) (value : List Emb) :
    List (String × List Emb) :=
  if m.any (fun p => p.1 == key) then
    m.map (fun p => if p.1 == key then (key, value) else p)
  else
    m ++ [(key, value)]

/-- The path of the entry `name` of directory `dir`. -/
def childPath (dir name : String) : String :=
  dir ++ "/" ++ name

/-- The test `filename.find("_visualize") != string::npos` of line 228. -/
def find_visualize (filename : String) : Bool :=
  filename.toList.tails.any (fun suffix => "_visualize".toList.isPrefixOf suffix)

/-- Constructing `directory_iterator(path)` on the root: `none` when it throws.  The empty
path names no directory. -/
def directory_iterator {Img : Type} (fs : FileSystem Img) (path : String) :
    Option (List (RootEntry Img)) :=
  if path = "" then none else fs.listing path

/-! ## The loader -/

/-- The function `FaceRecognition::extractFeatures` (lines 146-177) as the loader uses it:
`none` when one of its two `FR_ERROR` guards fires (detector unset, empty frame), otherwise
the features of the detected faces; finding no face only logs a warning. -/
def extractFeatures {Img Emb : Type} (V : Vision Img Emb) (frame : Option Img) :
    Option (List Emb) :=
  if V.detector = false then none
  else
    match frame with
    | none => none
    | some img => some (V.faceFeatures img)

/-- The inner loop of `loadPersonsDB` (lines 224-250) over the entries of one identity
subdirectory `dir`, accumulating `features`.  `FR_ERROR` expands to a `printf` followed by
`std::exit(1)` (helper.hpp lines 25-29), so each branch that reports through it ends the
process there. -/
def loadImages {Img Emb : Type} (V : Vision Img Emb) (visualize : Bool) (dir : String) :
    List (ImageEntry Img) → List Emb → FaceRecognition Emb →
      Outcome (List Emb × FaceRecognition Emb)
  | [], features, s => .returned (features, s)
  | .directory _ :: _, features, s => .exited 1 (features, s)
  | .file filename decoded :: rest, features, s =>
    if find_visualize filename then loadImages V visualize dir rest features s
    else
      let s₁ := s.record (.imread (childPath dir filename))
      match decoded with
      | none => .exited 1 (features, s₁)
      | some img =>
        let s₂ := s₁.record (.extractFeatures (childPath dir filename))
        match extractFeatures V (some img) with
        | none => .exited 1 (features, s₂)
        | some found =>
          let s₃ := if visualize then s₂.record (.imwrite (childPath dir filename)) else s₂
          loadImages V visualize dir rest (features ++ found) s₃

/-- The outer loop of `loadPersonsDB` (lines 219-255) over the entries of the root folder. -/
def loadFolders {Img Emb : Type} (V : Vision Img Emb) (visualize : Bool) (root : String) :
    List (RootEntry Img) → FaceRecognition Emb → Outcome (FaceRecognition Emb)
  | [], s => .returned s
  | .file _ :: _, s => .exited 1 s
  | .directory personName content :: rest, s =>
    let s₁ := s.record (.directory_iterator (childPath root personName))
    match content with
    | none => .thrown s₁
    | some files =>
      match loadImages V visualize (childPath root personName) files [] s₁ with
      | .returned (features, s₂) =>
        loadFolders V visualize root rest
          (s₂.setFeaturesMap (mapAssign s₂.featuresMap personName features))
      | .exited code (_, s₂) => .exited code s₂
      | .thrown (_, s₂) => .thrown s₂

/-- The function `FaceRecognition::loadPersonsDB` (lines 199-257). -/
def loadPersonsDB {Img Emb : Type} (V : Vision Img Emb) (fs : FileSystem Img)
    (persondb_folder : String) (force visualize : Bool) (s : FaceRecognition Emb) :
    Outcome (FaceRecognition Emb) :=
  let s₁ :=
    if s.dbPath = "" then { s with isDBLoaded := .NOT_LOADED }
    else if s.dbPath ≠ persondb_folder then { s with isDBLoaded := .NOT_LOADED }
    else s
  let s₂ := { s₁ with dbPath := persondb_folder }
  if s₂.isDBLoaded = .LOADED ∧ force = false then .returned s₂
  else
    let s₃ := { s₂ with isDBLoaded := .LOADING }
    let s₄ := s₃.setFeaturesMap []
    let s₅ := s₄.record (.directory_iterator persondb_folder)
    match directory_iterator fs persondb_folder with
    | none => .thrown s₅
    | some entries =>
      match loadFolders V visualize persondb_folder entries s₅ with
      | .returned s₆ => .returned { s₆ with isDBLoaded := .LOADED }
      | other => other

/-- The short-circuit of lines 200-214: after the status demotion of lines 200-206 the status
is still LOADED and `force` is false.  That is the case exactly when the object was LOADED
with the same, non-empty path and the load is not forced. -/
def skipsLoad {Emb : Type} (s : FaceRecognition Emb) (persondb_folder : String)
    (force : Bool) : Prop :=
  s.isDBLoaded = .LOADED ∧ s.dbPath ≠ "" ∧ s.dbPath = persondb_folder ∧ force = false

/-- The state in which the directory walk of a load pass starts (after line 217): status
LOADING, the path set, the registry cleared, the root about to be iterated. -/
def loadStart {Emb : Type} (s : FaceRecognition Emb) (persondb_folder : String) :
    FaceRecognition Emb :=
  { s with
    isDBLoaded := .LOADING,
    dbPath := persondb_folder,
    featuresMap := [],
    featuresMapLog := s.featuresMapLog ++ [[]],
    trace := s.trace ++ [.directory_iterator persondb_folder] }

/-! ## Valid trees and the registry they describe -/

/-- An entry of an identity subdirectory that the loader passes without reporting an error:
a non-directory that is a visualisation output or decodes to an image. -/
def validImageEntry {Img : Type} : ImageEntry Img → Bool
  | .file filename decoded => find_visualize filename || decoded.isSome
  | .directory _ => false

/-- A root entry of a valid tree: an identity subdirectory that can be iterated and holds
only valid entries. -/
def validRootEntry {Img : Type} : RootEntry Img → Bool
  | .directory _ (some files) => files.all validImageEntry
  | _ => false

/-- The decoded image files of an identity subdirectory, in order, without the files whose
name contains `_visualize`. -/
def imageFiles {Img : Type} (files : List (ImageEntry Img)) : List Img :=
  files.filterMap (fun entry =>
    match entry with
    | .file filename (some img) => if find_visualize filename then none else some img
    | _ => none)

/-- The in-order concatenation of the embeddings that the extractor returns for the image
files of an identity subdirectory. -/
def personFeatures {Img Emb : Type} (V : Vision Img Emb) (files : List (ImageEntry Img)) :
    List Emb :=
  (imageFiles files).flatMap V.faceFeatures

/-- The registry that a tree describes: one key per identity subdirectory, with the
embeddings of its image files. -/
def expectedRegistry {Img Emb : Type} (V : Vision Img Emb) (entries : List (RootEntry Img)) :
    List (String × List Emb) :=
  entries.filterMap (fun entry =>
    match entry with
    | .directory personName (some files) => some (personName, personFeatures V files)
    | _ => none)

/-! ## The watcher start-up -/

/-- The value `file_time_type::min()`: the least tick count of a signed 64-bit clock. -/
def fileTimeMin : Int := -(2 ^ 63)

/-- The function `FaceRecognition::getLatestModTime` (lines 80-97): the greatest
modification time among the regular files visited; an exception of the iteration is caught
and logged, and the value reached so far is returned. -/
def getLatestModTime (scan : Scan) : Int :=
  scan.visited.foldl
    (fun latestTime entry =>
      if entry.is_regular_file = true ∧ entry.last_write_time > latestTime then
        entry.last_write_time
      else latestTime)
    fileTimeMin

/-- The function `FaceRecognition::startWatching` (lines 35-51).  The first guard reports
through `FR_ERROR`, which ends the process with `std::exit(1)`. -/
def startWatching {Img Emb : Type} (fs : FileSystem Img) (check_interval_seconds : Int)
    (s : FaceRecognition Emb) : Outcome (FaceRecognition Emb) :=
  if s.dbPath = "" then .exited 1 s
  else if s.watcherRunning = true then .returned s
  else
    let s₁ := { s with checkInterval := check_interval_seconds }
    let s₂ := { s₁.record (.getLatestModTime s.dbPath) with
      lastModTime := getLatestModTime (fs.scan s.dbPath) }
    let s₃ := { s₂ with watcherRunning := true }
    .returned (s₃.record .thread)

/-! ## The watcher loop -/

/-- One iteration of the `while` loop of `watcherThreadFunc` (lines 65-74), without the
sleep: scan the tree; when the scanned time is strictly greater than the baseline, store
it as the baseline and reload with `force = true`, `visualize = false`.  An exception that
leaves the reload is caught by the `catch` of line 72 and the loop goes on; `std::exit`
ends the process. -/
def watcherCycle {Img Emb : Type} (V : Vision Img Emb) (fs : FileSystem Img)
    (s : FaceRecognition Emb) : Outcome (FaceRecognition Emb) :=
  let s₁ := s.record (.getLatestModTime s.dbPath)
  let currentModTime := getLatestModTime (fs.scan s.dbPath)
  if currentModTime > s₁.lastModTime then
    let s₂ := { s₁ with lastModTime := currentModTime }
    match loadPersonsDB V fs s₂.dbPath true false s₂ with
    | .thrown s₃ => .returned s₃
    | other => other
  else .returned s₁

/-- The function `FaceRecognition::watcherThreadFunc` (lines 63-78), run against the
filesystem as it is at each wake-up: the loop goes on while `watcherRunning` is set. -/
def watcherThreadFunc {Img Emb : Type} (V : Vision Img Emb) :
    List (FileSystem Img) → FaceRecognition Emb → Outcome (FaceRecognition Emb)
  | [], s => .returned s
  | fs :: later, s =>
    if s.watcherRunning = true then
      match watcherCycle V fs s with
      | .returned s₁ => watcherThreadFunc V later s₁
      | other => other
    else .returned s

/-! ## Recognition on a frame -/

/-- The function `FaceRecognition::run` (lines 283-305): the best match of every face that
`extractFeatures` finds in the frame, in order; `none` when `extractFeatures` ends the
process through `FR_ERROR`.  The flag `visualize` only selects drawing on the frame. -/
def run {Img Emb : Type} (V : Vision Img Emb) (R : Recognizer Emb) (s : FaceRecognition Emb)
    (frame : Option Img) (threshold : ℚ) (_visualize : Bool) : Option (List MatchResult) :=
  match extractFeatures V frame with
  | none => none
  | some det_faces =>
    some (det_faces.foldl
      (fun results face =>
        results ++ [(findBestMatch R s.featuresMap face threshold).bestmatch])
      [])

/-- The function `FaceRecognition::run_one_face` (lines 307-319): ("Unknown", 0.0) for no
result, otherwise the loop that starts from `results[0]` and takes every result with a
strictly greater score. -/
def run_one_face {Img Emb : Type} (V : Vision Img Emb) (R : Recognizer Emb)
    (s : FaceRecognition Emb) (frame : Option Img) (threshold : ℚ) (visualize : Bool) :
    Option MatchResult :=
  match run V R s frame threshold visualize with
  | none => none
  | some results =>
    match results with
    | [] => some ⟨"Unknown", 0⟩
    | first :: _ =>
      some (results.foldl
        (fun best_match result =>
          if result.score > best_match.score then result else best_match)
        first)

/-! ## Concrete inputs -/

/-- A vision model on images numbered by `Nat`: image `0` shows no face, any other image
shows one face whose feature is its number. -/
def testVision : Vision Nat Nat where
  detector := true
  faceFeatures := fun img => if img = 0 then [] else [img]

/-- A freshly constructed object: nothing loaded, no path, watcher not running. -/
def freshObject : FaceRecognition Nat where
  isDBLoaded := .NOT_LOADED
  featuresMap := []
  dbPath := ""
  lastModTime := 0
  watcherRunning := false
  checkInterval := 5
  trace := []
  featuresMapLog := []

/-- A filesystem whose only folder is `db`, with the given root entries. -/
def testFileSystem (entries : List (RootEntry Nat)) : FileSystem Nat where
  listing := fun path => if path = "db" then some entries else none
  scan := fun _ => ⟨[], false⟩

/-- A valid tree: alice with two images (the second shows no face) and a visualisation
output, bob with one image. -/
def validTree : List (RootEntry Nat) :=
  [.directory "alice" (some [.file "a1.jpg" (some 1), .file "a1_visualize.jpg" none,
      .file "a2.jpg" (some 0)]),
   .directory "bob" (some [.file "b1.jpg" (some 2)])]

/-- An object that has loaded the folder `old`, with one identity in its registry. -/
def loadedObject : FaceRecognition Nat where
  isDBLoaded := .LOADED
  featuresMap := [("zoe", [9])]
  dbPath := "old"
  lastModTime := 0
  watcherRunning := false
  checkInterval := 5
  trace := []
  featuresMapLog := [[("zoe", [9])]]

/-- A tree with a regular file directly under the root, next to a valid identity. -/
def treeWithRootFile : List (RootEntry Nat) :=
  [.directory "alice" (some [.file "a1.jpg" (some 1)]), .file "notes.txt",
   .directory "bob" (some [.file "b1.jpg" (some 2)])]

/-- A tree in which alice holds an unreadable image next to a readable one. -/
def treeWithUnreadableImage : List (RootEntry Nat) :=
  [.directory "alice" (some [.file "broken.jpg" none, .file "a1.jpg" (some 1)]),
   .directory "bob" (some [.file "b1.jpg" (some 2)])]

/-- A tree in which alice holds a nested directory next to an image. -/
def treeWithNestedDirectory : List (RootEntry Nat) :=
  [.directory "alice" (some [.directory "holiday", .file "a1.jpg" (some 1)]),
   .directory "bob" (some [.file "b1.jpg" (some 2)])]

/-- A tree in which the only image of alice shows no face. -/
def treeWithFacelessImage : List (RootEntry Nat) :=
  [.directory "alice" (some [.file "a0.jpg" (some 0)]),
   .directory "bob" (some [.file "b1.jpg" (some 2)])]

/-- An object that has loaded the folder `db` and whose watcher is running. -/
def watchingObject : FaceRecognition Nat where
  isDBLoaded := .LOADED
  featuresMap := [("alice", [1])]
  dbPath := "db"
  lastModTime := 100
  watcherRunning := true
  checkInterval := 5
  trace := [.thread]
  featuresMapLog := [[("alice", [1])]]

/-- The object after a first, unforced load of `validTree` from the folder `db`. -/
def loadedValidTree : FaceRecognition Nat where
  isDBLoaded := .LOADED
  featuresMap := [("alice", [1]), ("bob", [2])]
  dbPath := "db"
  lastModTime := 0
  watcherRunning := false
  checkInterval := 5
  trace := [.directory_iterator "db", .directory_iterator "db/alice",
    .imread "db/alice/a1.jpg", .extractFeatures "db/alice/a1.jpg",
    .imread "db/alice/a2.jpg", .extractFeatures "db/alice/a2.jpg",
    .directory_iterator "db/bob", .imread "db/bob/b1.jpg", .extractFeatures "db/bob/b1.jpg"]
  featuresMapLog := [[], [("alice", [1])], [("alice", [1]), ("bob", [2])]]

/-- A filesystem whose only folder is `db`, with the given root entries and the given
result of the recursive scan. -/
def scannedFileSystem (entries : List (RootEntry Nat)) (scan : Scan) : FileSystem Nat where
  listing := fun path => if path = "db" then some entries else none
  scan := fun _ => scan

/-- A scan that visits a directory and a regular file modified at time `200` and then ends
with a filesystem exception. -/
def failingScan : Scan :=
  ⟨[⟨false, 300⟩, ⟨true, 200⟩], true⟩

/-- A scan that ends with a filesystem exception before it visits anything. -/
def failedAtOnceScan : Scan :=
  ⟨[], true⟩

/-- A complete scan of a tree whose newest regular file was modified at time `200`. -/
def completeScan : Scan :=
  ⟨[⟨false, 300⟩, ⟨true, 150⟩, ⟨true, 200⟩, ⟨true, 50⟩], false⟩

/-- A vision model for group pictures: image `n` shows the faces with features `2`, `7`
and `1` when `n = 3`, and no face otherwise. -/
def groupVision : Vision Nat Nat where
  detector := true
  faceFeatures := fun img => if img = 3 then [2, 7, 1] else []

/-- A recogniser that scores `0.9` for a stored embedding equal to the query and `0.1`
otherwise; every score is kept by the narrowing. -/
def exactRecognizer : Recognizer Nat where
  matchScore := fun q e => if q = e then 9 / 10 else 1 / 10
  toFloat := fun x => x

/-- An object that has loaded the scenario registry from the folder `db`; its watcher is
running with baseline `200`. -/
def scenarioObject : FaceRecognition Nat where
  isDBLoaded := .LOADED
  featuresMap := scenarioRegistry
  dbPath := "db"
  lastModTime := 200
  watcherRunning := true
  checkInterval := 5
  trace := [.thread]
  featuresMapLog := [scenarioRegistry]

/-- A filesystem in which no folder can be iterated, with the given result of the
recursive scan: the watched folder as it is when it has been removed, or made unreadable,
after the scan. -/
def removedFolderFileSystem (scan : Scan) : FileSystem Nat where
  listing := fun _ => none
  scan := fun _ => scan

/-! ## Theorems: the matcher -/

theorem matchFold_nil {Emb : Type} (R : Recognizer Emb) (q : Emb) (t : ℚ) (acc : MatchResults) :
    matchFold R q t acc [] = acc := rfl

theorem matchFold_cons {Emb : Type} (R : Recognizer Emb) (q : Emb) (t : ℚ) (acc : MatchResults)
    (x : String × Emb) (l : List (String × Emb)) :
    matchFold R q t acc (x :: l) = matchFold R q t (matchStep R q t x.1 acc x.2) l := rfl

theorem matchFold_append {Emb : Type} (R : Recognizer Emb) (q : Emb) (t : ℚ) (acc : MatchResults)
    (l₁ l₂ : List (String × Emb)) :
    matchFold R q t acc (l₁ ++ l₂) = matchFold R q t (matchFold R q t acc l₁) l₂ := by
  simp [matchFold, List.foldl_append]

theorem storedEntries_nil {Emb : Type} : storedEntries ([] : List (String × List Emb)) = [] := rfl

theorem storedEntries_cons {Emb : Type} (p : String × List Emb) (fm : List (String × List Emb)) :
    storedEntries (p :: fm) = p.2.map (fun feat => (p.1, feat)) ++ storedEntries fm := by
  simp [storedEntries]

theorem storedEntries_append {Emb : Type} (fm₁ fm₂ : List (String × List Emb)) :
    storedEntries (fm₁ ++ fm₂) = storedEntries fm₁ ++ storedEntries fm₂ := by
  simp [storedEntries]

theorem mem_storedEntries {Emb : Type} (fm : List (String × List Emb)) (x : String × Emb) :
    x ∈ storedEntries fm ↔ ∃ p ∈ fm, x.1 = p.1 ∧ x.2 ∈ p.2 := by
  constructor
  · intro h
    simp only [storedEntries, List.mem_flatMap, List.mem_map] at h
    obtain ⟨p, hp, f, hf, rfl⟩ := h
    exact ⟨p, hp, rfl, hf⟩
  · rintro ⟨p, hp, h1, h2⟩
    simp only [storedEntries, List.mem_flatMap, List.mem_map]
    exact ⟨p, hp, x.2, h2, by rw [← h1]⟩

/-- The nested loops of `findBestMatch` are one pass over the stored embeddings. -/
theorem foldl_inner_eq_matchFold {Emb : Type} (R : Recognizer Emb) (q : Emb) (t : ℚ)
    (fm : List (String × List Emb)) (acc : MatchResults) :
    fm.foldl (fun a pair => pair.2.foldl (matchStep R q t pair.1) a) acc
      = matchFold R q t acc (storedEntries fm) := by
  induction fm generalizing acc with
  | nil => rfl
  | cons p fm ih =>
    rw [List.foldl_cons, ih, storedEntries_cons, matchFold_append]
    congr 1
    simp [matchFold, List.foldl_map]

theorem findBestMatch_eq_matchFold {Emb : Type} (R : Recognizer Emb)
    (fm : List (String × List Emb)) (q : Emb) (t : ℚ) :
    findBestMatch R fm q t = matchFold R q t ⟨[], ⟨"Unknown", 0⟩⟩ (storedEntries fm) :=
  foldl_inner_eq_matchFold R q t fm _

theorem matchStep_eq {Emb : Type} (R : Recognizer Emb) (q : Emb) (t : ℚ) (n : String)
    (acc : MatchResults) (f : Emb) :
    matchStep R q t n acc f =
      if R.matchScore q f > acc.bestmatch.score ∧ R.matchScore q f > t then
        ⟨acc.results ++ [⟨n, R.toFloat (R.matchScore q f)⟩], ⟨n, R.toFloat (R.matchScore q f)⟩⟩
      else ⟨acc.results ++ [⟨n, R.toFloat (R.matchScore q f)⟩], acc.bestmatch⟩ := rfl

theorem matchStep_results {Emb : Type} (R : Recognizer Emb) (q : Emb) (t : ℚ) (n : String)
    (acc : MatchResults) (f : Emb) :
    (matchStep R q t n acc f).results = acc.results ++ [⟨n, R.toFloat (R.matchScore q f)⟩] := by
  rw [matchStep_eq]
  split <;> rfl

theorem matchStep_keep {Emb : Type} (R : Recognizer Emb) (q : Emb) (t : ℚ) (n : String)
    (acc : MatchResults) (f : Emb)
    (h : R.matchScore q f ≤ acc.bestmatch.score ∨ R.matchScore q f ≤ t) :
    (matchStep R q t n acc f).bestmatch = acc.bestmatch := by
  rw [matchStep_eq]
  split
  · rename_i hc
    rcases h with h | h
    · exact absurd hc.1 (not_lt.mpr h)
    · exact absurd hc.2 (not_lt.mpr h)
  · rfl

theorem matchStep_hit {Emb : Type} (R : Recognizer Emb) (q : Emb) (t : ℚ) (n : String)
    (acc : MatchResults) (f : Emb)
    (h1 : R.matchScore q f > acc.bestmatch.score) (h2 : R.matchScore q f > t) :
    (matchStep R q t n acc f).bestmatch = ⟨n, R.toFloat (R.matchScore q f)⟩ := by
  rw [matchStep_eq, if_pos ⟨h1, h2⟩]

theorem matchFold_results {Emb : Type} (R : Recognizer Emb) (q : Emb) (t : ℚ)
    (l : List (String × Emb)) (acc : MatchResults) :
    (matchFold R q t acc l).results
      = acc.results ++ l.map (fun x => ⟨x.1, R.toFloat (R.matchScore q x.2)⟩) := by
  induction l generalizing acc with
  | nil => simp [matchFold_nil]
  | cons x l ih =>
    rw [matchFold_cons, ih, matchStep_results]
    simp

theorem matchFold_keep {Emb : Type} (R : Recognizer Emb) (q : Emb) (t : ℚ)
    (l : List (String × Emb)) (acc : MatchResults)
    (h : ∀ x ∈ l, R.matchScore q x.2 ≤ acc.bestmatch.score ∨ R.matchScore q x.2 ≤ t) :
    (matchFold R q t acc l).bestmatch = acc.bestmatch := by
  induction l generalizing acc with
  | nil => rfl
  | cons x l ih =>
    have hx := matchStep_keep R q t x.1 acc x.2 (h x (List.mem_cons_self _ _))
    rw [matchFold_cons, ih, hx]
    intro y hy
    rw [hx]
    exact h y (List.mem_cons_of_mem _ hy)

theorem matchFold_below {Emb : Type} (R : Recognizer Emb) (q : Emb) (t s : ℚ)
    (l : List (String × Emb)) (acc : MatchResults)
    (hexact : ∀ x ∈ l, R.toFloat (R.matchScore q x.2) = R.matchScore q x.2)
    (hlt : ∀ x ∈ l, R.matchScore q x.2 < s) (hacc : acc.bestmatch.score < s) :
    (matchFold R q t acc l).bestmatch.score < s := by
  induction l generalizing acc with
  | nil => exact hacc
  | cons x l ih =>
    rw [matchFold_cons]
    apply ih _ (fun y hy => hexact y (List.mem_cons_of_mem _ hy))
      (fun y hy => hlt y (List.mem_cons_of_mem _ hy))
    rw [matchStep_eq]
    split
    · show R.toFloat (R.matchScore q x.2) < s
      rw [hexact x (List.mem_cons_self _ _)]
      exact hlt x (List.mem_cons_self _ _)
    · exact hacc

/-- The first stored embedding that reaches the maximal score decides the best match, when
that score is positive and above the threshold and the narrowing keeps the scores seen up
to it. -/
theorem matchFold_first_max {Emb : Type} (R : Recognizer Emb) (q : Emb) (t : ℚ)
    (pre post : List (String × Emb)) (n : String) (e : Emb)
    (hexact : ∀ x ∈ pre ++ [(n, e)], R.toFloat (R.matchScore q x.2) = R.matchScore q x.2)
    (hpre : ∀ x ∈ pre, R.matchScore q x.2 < R.matchScore q e)
    (hpost : ∀ x ∈ post, R.matchScore q x.2 ≤ R.matchScore q e)
    (ht : R.matchScore q e > t) (h0 : R.matchScore q e > 0) :
    (matchFold R q t ⟨[], ⟨"Unknown", 0⟩⟩ (pre ++ (n, e) :: post)).bestmatch
      = ⟨n, R.matchScore q e⟩ := by
  rw [matchFold_append, matchFold_cons]
  have hb := matchFold_below R q t (R.matchScore q e) pre ⟨[], ⟨"Unknown", 0⟩⟩
    (fun x hx => hexact x (List.mem_append_left _ hx)) hpre h0
  have hhit := matchStep_hit R q t n _ e hb ht
  have hex : R.toFloat (R.matchScore q e) = R.matchScore q e :=
    hexact (n, e) (List.mem_append_right _ (List.mem_singleton_self _))
  rw [hex] at hhit
  rw [matchFold_keep, hhit]
  intro x hx
  left
  rw [hhit]
  exact hpost x hx

/-- A list that reaches its maximal score splits at the first element reaching it. -/
theorem exists_first_max {Emb : Type} (R : Recognizer Emb) (q : Emb) (s : ℚ)
    (l : List (String × Emb)) (hmax : ∀ x ∈ l, R.matchScore q x.2 ≤ s)
    (hs : ∃ x ∈ l, R.matchScore q x.2 = s) :
    ∃ pre x post, l = pre ++ x :: post ∧ R.matchScore q x.2 = s ∧
      ∀ y ∈ pre, R.matchScore q y.2 < s := by
  induction l with
  | nil => obtain ⟨x, hx, _⟩ := hs; cases hx
  | cons a l ih =>
    by_cases ha : R.matchScore q a.2 = s
    · exact ⟨[], a, l, rfl, ha, fun y hy => by cases hy⟩
    · have hs2 : ∃ x ∈ l, R.matchScore q x.2 = s := by
        obtain ⟨x, hx, hxs⟩ := hs
        rcases List.mem_cons.mp hx with rfl | hx
        · exact absurd hxs ha
        · exact ⟨x, hx, hxs⟩
      obtain ⟨pre, x, post, hl, hx, hpre⟩ :=
        ih (fun y hy => hmax y (List.mem_cons_of_mem _ hy)) hs2
      refine ⟨a :: pre, x, post, by rw [hl]; rfl, hx, ?_⟩
      intro y hy
      rcases List.mem_cons.mp hy with rfl | hy
      · exact lt_of_le_of_ne (hmax _ (List.mem_cons_self _ _)) ha
      · exact hpre y hy

/-- Claim C1, as amended: when the maximal score `s` over all stored embeddings is above the
threshold and also above `0` (the score of the initial running best), and the narrowing to
single precision keeps every stored score, `findBestMatch` returns as best match the score
`s` together with an identity that holds an embedding scoring `s`. -/
theorem findBestMatch_returns_max {Emb : Type} (R : Recognizer Emb)
    (featuresMap : List (String × List Emb)) (q : Emb) (t s : ℚ)
    (hexact : ∀ p ∈ featuresMap, ∀ e ∈ p.2, R.toFloat (R.matchScore q e) = R.matchScore q e)
    (hmax : ∀ p ∈ featuresMap, ∀ e ∈ p.2, R.matchScore q e ≤ s)
    (hs : ∃ p ∈ featuresMap, ∃ e ∈ p.2, R.matchScore q e = s)
    (ht : s > t) (h0 : s > 0) :
    (findBestMatch R featuresMap q t).bestmatch.score = s ∧
      ∃ p ∈ featuresMap, p.1 = (findBestMatch R featuresMap q t).bestmatch.name ∧
        ∃ e ∈ p.2, R.matchScore q e = s := by
  have hmax2 : ∀ x ∈ storedEntries featuresMap, R.matchScore q x.2 ≤ s := by
    intro x hx
    obtain ⟨p, hp, _, h2⟩ := (mem_storedEntries featuresMap x).mp hx
    exact hmax p hp x.2 h2
  have hs2 : ∃ x ∈ storedEntries featuresMap, R.matchScore q x.2 = s := by
    obtain ⟨p, hp, e, he, hes⟩ := hs
    exact ⟨(p.1, e), (mem_storedEntries featuresMap _).mpr ⟨p, hp, rfl, he⟩, hes⟩
  obtain ⟨pre, x, post, hl, hx, hpre⟩ := exists_first_max R q s _ hmax2 hs2
  have hmem : ∀ y ∈ pre ++ [x], y ∈ storedEntries featuresMap := by
    intro y hy
    rw [hl]
    rcases List.mem_append.mp hy with h | h
    · exact List.mem_append_left _ h
    · exact List.mem_append_right _ (by rw [List.mem_singleton.mp h]; exact List.mem_cons_self _ _)
  have hbest : (findBestMatch R featuresMap q t).bestmatch = ⟨x.1, R.matchScore q x.2⟩ := by
    rw [findBestMatch_eq_matchFold, hl]
    apply matchFold_first_max R q t pre post x.1 x.2
    · intro y hy
      obtain ⟨p, hp, _, h2⟩ := (mem_storedEntries featuresMap y).mp (hmem y hy)
      exact hexact p hp y.2 h2
    · intro y hy; rw [hx]; exact hpre y hy
    · intro y hy
      rw [hx]
      exact hmax2 y (by rw [hl]; exact List.mem_append_right _ (List.mem_cons_of_mem _ hy))
    · rw [hx]; exact ht
    · rw [hx]; exact h0
  rw [hbest]
  refine ⟨hx, ?_⟩
  obtain ⟨p, hp, h1, h2⟩ := (mem_storedEntries featuresMap x).mp
    (hmem x (List.mem_append_right _ (List.mem_singleton_self _)))
  exact ⟨p, hp, h1.symm, x.2, h2, hx⟩

/-- Witness for C1: the scenario of the specification, registry {alice:[e1], bob:[e2,e3]}
with scores 0.8, 0.5, 0.9 and threshold 0.6, gives the best match ("bob", 0.9). -/
theorem findBestMatch_returns_max_witness :
    (findBestMatch scenarioRecognizer scenarioRegistry 0 (6 / 10)).bestmatch.score = 9 / 10 ∧
      (∃ p ∈ scenarioRegistry,
        p.1 = (findBestMatch scenarioRecognizer scenarioRegistry 0 (6 / 10)).bestmatch.name ∧
          ∃ e ∈ p.2, scenarioRecognizer.matchScore 0 e = 9 / 10) ∧
      (findBestMatch scenarioRecognizer scenarioRegistry 0 (6 / 10)).bestmatch
        = ⟨"bob", 9 / 10⟩ := by
  have h := findBestMatch_returns_max scenarioRecognizer scenarioRegistry 0 (6 / 10) (9 / 10)
    (by simp [scenarioRecognizer])
    (by norm_num [scenarioRecognizer, scenarioRegistry])
    (by norm_num [scenarioRecognizer, scenarioRegistry])
    (by norm_num) (by norm_num)
  exact ⟨h.1, h.2, by norm_num [findBestMatch, scenarioRecognizer, scenarioRegistry, matchStep]⟩

/-- Counterexample to C1 as stated.  First input: alice holds one embedding scoring `-1/2`
and the threshold is `-1`; the maximal score `-1/2` is above the threshold, yet the best
match is ("Unknown", 0), because no score at or below `0` replaces the initial running
best.  Second input: alice scores `1 - 2^-30`, bob scores the maximum `1 - 2^-31`, the
threshold is `0.25`; the running best stores alice with the narrowed score `1`, which bob
does not exceed, so the best match is ("alice", 1) although only bob holds an embedding
with the maximal score. -/
theorem findBestMatch_returns_max_counterexample :
    ((∀ p ∈ [("alice", [1])], ∀ e ∈ p.2, negativeRecognizer.matchScore 0 e ≤ -1 / 2) ∧
      (∃ p ∈ [("alice", [1])], ∃ e ∈ p.2, negativeRecognizer.matchScore 0 e = -1 / 2) ∧
      (-1 / 2 : ℚ) > -1 ∧
      (findBestMatch negativeRecognizer [("alice", [1])] 0 (-1)).bestmatch = ⟨"Unknown", 0⟩) ∧
    ((∀ p ∈ pairRegistry, ∀ e ∈ p.2, nearOneRecognizer.matchScore 0 e ≤ 1 - 1 / 2 ^ 31) ∧
      (∃ p ∈ pairRegistry, ∃ e ∈ p.2, nearOneRecognizer.matchScore 0 e = 1 - 1 / 2 ^ 31) ∧
      (1 - 1 / 2 ^ 31 : ℚ) > 1 / 4 ∧
      (findBestMatch nearOneRecognizer pairRegistry 0 (1 / 4)).bestmatch = ⟨"alice", 1⟩ ∧
      ¬ ∃ e ∈ [1], nearOneRecognizer.matchScore 0 e = 1 - 1 / 2 ^ 31) := by
  refine ⟨⟨?_, ?_, ?_, ?_⟩, ?_, ?_, ?_, ?_, ?_⟩
  · norm_num [negativeRecognizer]
  · norm_num [negativeRecognizer]
  · norm_num
  · norm_num [findBestMatch, negativeRecognizer, matchStep]
  · norm_num [nearOneRecognizer, pairRegistry]
  · norm_num [nearOneRecognizer, pairRegistry]
  · norm_num
  · norm_num [findBestMatch, nearOneRecognizer, pairRegistry, matchStep]
  · norm_num [nearOneRecognizer]

/-- Claim C2: when every stored embedding scores at most the threshold (in particular for
the empty registry), the best match of `findBestMatch` is ("Unknown", 0.0). -/
theorem findBestMatch_unknown_of_le_threshold {Emb : Type} (R : Recognizer Emb)
    (featuresMap : List (String × List Emb)) (q : Emb) (t : ℚ)
    (h : ∀ p ∈ featuresMap, ∀ e ∈ p.2, R.matchScore q e ≤ t) :
    (findBestMatch R featuresMap q t).bestmatch = ⟨"Unknown", 0⟩ := by
  rw [findBestMatch_eq_matchFold, matchFold_keep]
  intro x hx
  obtain ⟨p, hp, _, h2⟩ := (mem_storedEntries featuresMap x).mp hx
  exact Or.inr (h p hp x.2 h2)

/-- Witness for C2: the scenario of the specification with threshold 0.95; the all-scores
list has three entries and the best match is ("Unknown", 0.0). -/
theorem findBestMatch_unknown_of_le_threshold_witness :
    (∀ p ∈ scenarioRegistry, ∀ e ∈ p.2, scenarioRecognizer.matchScore 0 e ≤ 95 / 100) ∧
      (findBestMatch scenarioRecognizer scenarioRegistry 0 (95 / 100)).bestmatch
        = ⟨"Unknown", 0⟩ ∧
      (findBestMatch scenarioRecognizer scenarioRegistry 0 (95 / 100)).results.length = 3 :=
  ⟨by norm_num [scenarioRecognizer, scenarioRegistry],
   findBestMatch_unknown_of_le_threshold scenarioRecognizer scenarioRegistry 0 (95 / 100)
     (by norm_num [scenarioRecognizer, scenarioRegistry]),
   by norm_num [findBestMatch, scenarioRecognizer, scenarioRegistry, matchStep]⟩

/-- Claim C3, as amended: let the embedding `e` of identity `n` be the first stored embedding,
in iteration order, that reaches the maximal score: every embedding of an earlier identity
and every earlier embedding of `n` scores strictly less, everything after scores at most as
much.  When that score is above the threshold and above `0`, and the narrowing to single
precision keeps every stored score, the best match is `n` with that score.  Moreover a
candidate whose score equals the score of the running best never replaces it. -/
theorem findBestMatch_first_of_tied {Emb : Type} (R : Recognizer Emb)
    (before after : List (String × List Emb)) (n : String) (es₁ es₂ : List Emb) (e q : Emb)
    (t : ℚ)
    (hexact : ∀ p ∈ before ++ (n, es₁ ++ e :: es₂) :: after, ∀ f ∈ p.2,
      R.toFloat (R.matchScore q f) = R.matchScore q f)
    (hbefore : ∀ p ∈ before, ∀ f ∈ p.2, R.matchScore q f < R.matchScore q e)
    (hes₁ : ∀ f ∈ es₁, R.matchScore q f < R.matchScore q e)
    (hes₂ : ∀ f ∈ es₂, R.matchScore q f ≤ R.matchScore q e)
    (hafter : ∀ p ∈ after, ∀ f ∈ p.2, R.matchScore q f ≤ R.matchScore q e)
    (ht : R.matchScore q e > t) (h0 : R.matchScore q e > 0) :
    (findBestMatch R (before ++ (n, es₁ ++ e :: es₂) :: after) q t).bestmatch
        = ⟨n, R.matchScore q e⟩ ∧
      ∀ (acc : MatchResults) (name : String) (f : Emb),
        R.matchScore q f = acc.bestmatch.score →
          (matchStep R q t name acc f).bestmatch = acc.bestmatch := by
  refine ⟨?_, fun acc name f hf => matchStep_keep R q t name acc f (Or.inl (le_of_eq hf))⟩
  have hflat : storedEntries (before ++ (n, es₁ ++ e :: es₂) :: after)
      = (storedEntries before ++ es₁.map (fun f => (n, f))) ++ (n, e) ::
          (es₂.map (fun f => (n, f)) ++ storedEntries after) := by
    rw [storedEntries_append, storedEntries_cons]
    simp
  have hmemL : ∀ x ∈ storedEntries before ++ es₁.map (fun f => (n, f)),
      R.matchScore q x.2 < R.matchScore q e ∧
        R.toFloat (R.matchScore q x.2) = R.matchScore q x.2 := by
    intro x hx
    rcases List.mem_append.mp hx with h | h
    · obtain ⟨p, hp, _, h2⟩ := (mem_storedEntries before x).mp h
      exact ⟨hbefore p hp x.2 h2, hexact p (List.mem_append_left _ hp) x.2 h2⟩
    · obtain ⟨f, hf, rfl⟩ := List.mem_map.mp h
      exact ⟨hes₁ f hf, hexact (n, es₁ ++ e :: es₂)
        (List.mem_append_right _ (List.mem_cons_self _ _)) f (List.mem_append_left _ hf)⟩
  rw [findBestMatch_eq_matchFold, hflat]
  apply matchFold_first_max R q t _ _ n e
  · intro x hx
    rcases List.mem_append.mp hx with h | h
    · exact (hmemL x h).2
    · rw [List.mem_singleton.mp h]
      exact hexact (n, es₁ ++ e :: es₂) (List.mem_append_right _ (List.mem_cons_self _ _)) e
        (List.mem_append_right _ (List.mem_cons_self _ _))
  · exact fun x hx => (hmemL x hx).1
  · intro x hx
    rcases List.mem_append.mp hx with h | h
    · obtain ⟨f, hf, rfl⟩ := List.mem_map.mp h
      exact hes₂ f hf
    · obtain ⟨p, hp, _, h2⟩ := (mem_storedEntries after x).mp h
      exact hafter p hp x.2 h2
  · exact ht
  · exact h0

/-- A registry in which bob's first and carol's only embedding tie at the maximal score. -/
theorem findBestMatch_first_of_tied_witness :
    (findBestMatch scenarioRecognizer
        ([("alice", [1])] ++ ("bob", [2] ++ 3 :: [1]) :: [("carol", [4])]) 0 (6 / 10)).bestmatch
        = ⟨"bob", scenarioRecognizer.matchScore 0 3⟩ ∧
      scenarioRecognizer.matchScore 0 3 = scenarioRecognizer.matchScore 0 4 :=
  ⟨(findBestMatch_first_of_tied scenarioRecognizer [("alice", [1])] [("carol", [4])] "bob"
      [2] [1] 3 0 (6 / 10)
      (by simp [scenarioRecognizer])
      (by norm_num [scenarioRecognizer])
      (by norm_num [scenarioRecognizer])
      (by norm_num [scenarioRecognizer])
      (by norm_num [scenarioRecognizer])
      (by norm_num [scenarioRecognizer])
      (by norm_num [scenarioRecognizer])).1,
   by norm_num [scenarioRecognizer]⟩

/-- Counterexample to C3 as stated.  First input: alice and bob each hold one embedding
scoring `-1/2`, the threshold is `-1`; both reach the maximal score, which is above the
threshold, yet the best match is "Unknown" and not alice.  Second input: alice and bob each
hold one embedding scoring `1/2 + 2^-30`, the threshold is `0.25`; the running best stores
alice with the narrowed score `1/2`, which bob's score exceeds, so the best match is bob,
the last of the tied embeddings. -/
theorem findBestMatch_first_of_tied_counterexample :
    (negativeRecognizer.matchScore 0 1 = negativeRecognizer.matchScore 0 2 ∧
      negativeRecognizer.matchScore 0 1 > -1 ∧
      (findBestMatch negativeRecognizer pairRegistry 0 (-1)).bestmatch.name = "Unknown") ∧
    (tiedRecognizer.matchScore 0 1 = tiedRecognizer.matchScore 0 2 ∧
      tiedRecognizer.matchScore 0 1 > 1 / 4 ∧
      (findBestMatch tiedRecognizer pairRegistry 0 (1 / 4)).bestmatch = ⟨"bob", 1 / 2⟩) := by
  refine ⟨⟨rfl, ?_, ?_⟩, rfl, ?_, ?_⟩
  · norm_num [negativeRecognizer]
  · norm_num [findBestMatch, negativeRecognizer, pairRegistry, matchStep]
  · norm_num [tiedRecognizer]
  · norm_num [findBestMatch, tiedRecognizer, pairRegistry, matchStep]

/-- Claim C4: the all-scores list of `findBestMatch` has one entry per stored embedding, in
iteration order, each with the name of the owning identity and the score of that embedding
(as stored in the single precision field of `MatchResult`); its length is the sum of the
numbers of embeddings of the identities, and it is the same for every threshold. -/
theorem findBestMatch_results {Emb : Type} (R : Recognizer Emb)
    (featuresMap : List (String × List Emb)) (q : Emb) (t : ℚ) :
    (findBestMatch R featuresMap q t).results
        = featuresMap.flatMap
            (fun p => p.2.map (fun e => (⟨p.1, R.toFloat (R.matchScore q e)⟩ : MatchResult))) ∧
      (findBestMatch R featuresMap q t).results.length
        = (featuresMap.map (fun p => p.2.length)).sum ∧
      (∀ t₂ : ℚ, (findBestMatch R featuresMap q t₂).results
        = (findBestMatch R featuresMap q t).results) ∧
      (findBestMatch scenarioRecognizer scenarioRegistry 0 (6 / 10)).results
        = [⟨"alice", 8 / 10⟩, ⟨"bob", 5 / 10⟩, ⟨"bob", 9 / 10⟩] := by
  have key : ∀ t₁ : ℚ, (findBestMatch R featuresMap q t₁).results
      = featuresMap.flatMap
          (fun p => p.2.map (fun e => (⟨p.1, R.toFloat (R.matchScore q e)⟩ : MatchResult))) := by
    intro t₁
    rw [findBestMatch_eq_matchFold, matchFold_results]
    simp only [storedEntries, List.map_flatMap, List.map_map, List.nil_append]
    rfl
  refine ⟨key t, ?_, fun t₂ => by rw [key t₂, key t], ?_⟩
  · rw [key t, List.length_flatMap]
    congr 1
    apply List.map_congr_left
    intro p _
    simp
  · norm_num [findBestMatch, scenarioRecognizer, scenarioRegistry, matchStep]


/-! ## Theorems: the loader -/

theorem mapAssign_new {Emb : Type} (m : List (String × List Emb)) (key : String)
    (value : List Emb) (h : key ∉ m.map Prod.fst) :
    mapAssign m key value = m ++ [(key, value)] := by
  unfold mapAssign
  rw [if_neg]
  simp only [List.any_eq_true, beq_iff_eq, not_exists, not_and]
  intro p hp hk
  exact h (List.mem_map.mpr ⟨p, hp, hk⟩)

theorem extractFeatures_some {Img Emb : Type} (V : Vision Img Emb) (img : Img)
    (hdet : V.detector = true) :
    extractFeatures V (some img) = some (V.faceFeatures img) := by
  simp [extractFeatures, hdet]

theorem record_trace_append {Emb : Type} (s : FaceRecognition Emb) (tr : List Event)
    (e : Event) :
    ({ s with trace := s.trace ++ tr } : FaceRecognition Emb).record e
      = { s with trace := s.trace ++ (tr ++ [e]) } := by
  simp [FaceRecognition.record]

/-- On valid entries the inner loop returns the features of the image files; of the object
state it changes only the trace. -/
theorem loadImages_valid {Img Emb : Type} (V : Vision Img Emb) (visualize : Bool)
    (dir : String) (hdet : V.detector = true) :
    ∀ (files : List (ImageEntry Img)) (features : List Emb) (s : FaceRecognition Emb),
      files.all validImageEntry = true →
      ∃ tr, loadImages V visualize dir files features s
        = .returned (features ++ personFeatures V files, { s with trace := s.trace ++ tr }) := by
  intro files
  induction files with
  | nil =>
    intro features s _
    exact ⟨[], by simp [loadImages, personFeatures, imageFiles]⟩
  | cons entry rest ih =>
    intro features s hvalid
    rw [List.all_cons, Bool.and_eq_true] at hvalid
    obtain ⟨hentry, hrest⟩ := hvalid
    cases entry with
    | directory filename => simp [validImageEntry] at hentry
    | file filename decoded =>
      by_cases hviz : find_visualize filename = true
      · obtain ⟨tr, htr⟩ := ih features s hrest
        refine ⟨tr, ?_⟩
        rw [loadImages, if_pos hviz, htr]
        cases decoded <;> simp [personFeatures, imageFiles, hviz]
      · cases decoded with
        | none => simp [validImageEntry, hviz] at hentry
        | some img =>
          cases visualize with
          | false =>
            obtain ⟨tr, htr⟩ := ih (features ++ V.faceFeatures img)
              ((s.record (.imread (childPath dir filename))).record
                (.extractFeatures (childPath dir filename))) hrest
            refine ⟨[.imread (childPath dir filename),
              .extractFeatures (childPath dir filename)] ++ tr, ?_⟩
            rw [loadImages, if_neg hviz]
            simp only [extractFeatures_some V img hdet]
            simp only [Bool.false_eq_true, if_false]
            rw [htr]
            simp [personFeatures, imageFiles, hviz, FaceRecognition.record]
          | true =>
            obtain ⟨tr, htr⟩ := ih (features ++ V.faceFeatures img)
              (((s.record (.imread (childPath dir filename))).record
                (.extractFeatures (childPath dir filename))).record
                  (.imwrite (childPath dir filename))) hrest
            refine ⟨[.imread (childPath dir filename),
              .extractFeatures (childPath dir filename),
              .imwrite (childPath dir filename)] ++ tr, ?_⟩
            rw [loadImages, if_neg hviz]
            simp only [extractFeatures_some V img hdet]
            simp only [if_true]
            rw [htr]
            simp [personFeatures, imageFiles, hviz, FaceRecognition.record]

theorem inits_eq_nil_cons_tail {α : Type} (l : List α) : l.inits = [] :: l.inits.tail := by
  cases l <;> simp [List.inits]

theorem expectedRegistry_cons_directory {Img Emb : Type} (V : Vision Img Emb)
    (personName : String) (files : List (ImageEntry Img)) (rest : List (RootEntry Img)) :
    expectedRegistry V (.directory personName (some files) :: rest)
      = (personName, personFeatures V files) :: expectedRegistry V rest := by
  simp [expectedRegistry]

/-- The keys of the registry that a valid tree describes are the names of its entries. -/
theorem expectedRegistry_keys {Img Emb : Type} (V : Vision Img Emb)
    (entries : List (RootEntry Img)) (hvalid : entries.all validRootEntry = true) :
    (expectedRegistry V entries).map Prod.fst = entries.map RootEntry.name := by
  induction entries with
  | nil => rfl
  | cons entry rest ih =>
    rw [List.all_cons, Bool.and_eq_true] at hvalid
    obtain ⟨hentry, hrest⟩ := hvalid
    cases entry with
    | file filename => simp [validRootEntry] at hentry
    | directory personName content =>
      cases content with
      | none => simp [validRootEntry] at hentry
      | some files =>
        rw [expectedRegistry_cons_directory, List.map_cons, List.map_cons, ih hrest]
        rfl

/-- On a valid tree the outer loop returns; it appends the registry that the tree describes,
one identity per write, and of the rest of the object state it changes only the trace. -/
theorem loadFolders_valid {Img Emb : Type} (V : Vision Img Emb) (visualize : Bool)
    (root : String) (hdet : V.detector = true) :
    ∀ (entries : List (RootEntry Img)) (s : FaceRecognition Emb),
      entries.all validRootEntry = true →
      (entries.map RootEntry.name).Nodup →
      (∀ name ∈ entries.map RootEntry.name, name ∉ s.featuresMap.map Prod.fst) →
      ∃ tr, loadFolders V visualize root entries s = .returned { s with
        featuresMap := s.featuresMap ++ expectedRegistry V entries,
        featuresMapLog := s.featuresMapLog ++
          ((expectedRegistry V entries).inits.tail).map (fun m => s.featuresMap ++ m),
        trace := s.trace ++ tr } := by
  intro entries
  induction entries with
  | nil =>
    intro s _ _ _
    exact ⟨[], by simp [loadFolders, expectedRegistry]⟩
  | cons entry rest ih =>
    intro s hvalid hnodup hfresh
    rw [List.all_cons, Bool.and_eq_true] at hvalid
    obtain ⟨hentry, hrest⟩ := hvalid
    cases entry with
    | file filename => simp [validRootEntry] at hentry
    | directory personName content =>
      cases content with
      | none => simp [validRootEntry] at hentry
      | some files =>
        have hfiles : files.all validImageEntry = true := hentry
        obtain ⟨tr₁, h₁⟩ := loadImages_valid V visualize (childPath root personName) hdet
          files [] (s.record (.directory_iterator (childPath root personName))) hfiles
        rw [List.map_cons, List.nodup_cons] at hnodup
        have hnew : personName ∉ s.featuresMap.map Prod.fst :=
          hfresh personName (by simp [RootEntry.name])
        obtain ⟨tr₂, h₂⟩ := ih
          ({ s with
            featuresMap := s.featuresMap ++ [(personName, personFeatures V files)],
            featuresMapLog := s.featuresMapLog ++
              [s.featuresMap ++ [(personName, personFeatures V files)]],
            trace := s.trace ++ ([.directory_iterator (childPath root personName)] ++ tr₁) })
          hrest hnodup.2
          (by
            intro name hname
            simp only [List.map_append, List.map_cons, List.map_nil, List.mem_append,
              List.mem_singleton, not_or]
            refine ⟨hfresh name (List.mem_cons_of_mem _ hname), ?_⟩
            rintro rfl
            exact hnodup.1 hname)
        refine ⟨[.directory_iterator (childPath root personName)] ++ tr₁ ++ tr₂, ?_⟩
        rw [loadFolders]
        simp only [h₁]
        simp only [FaceRecognition.setFeaturesMap, FaceRecognition.record, List.nil_append,
          mapAssign_new _ _ _ hnew, List.append_assoc] at h₂ ⊢
        rw [h₂, expectedRegistry_cons_directory, List.inits_cons, List.tail_cons,
          inits_eq_nil_cons_tail (expectedRegistry V rest)]
        simp [List.map_map, Function.comp_def]

theorem loadPersonsDB_of_skip {Img Emb : Type} (V : Vision Img Emb) (fs : FileSystem Img)
    (path : String) (force visualize : Bool) (s : FaceRecognition Emb)
    (h : skipsLoad s path force) :
    loadPersonsDB V fs path force visualize s = .returned s := by
  obtain ⟨h₁, h₂, h₃, h₄⟩ := h
  subst h₃
  cases s
  simp only at h₁ h₂
  simp [loadPersonsDB, h₁, h₂, h₄]

theorem loadPersonsDB_of_not_skip {Img Emb : Type} (V : Vision Img Emb) (fs : FileSystem Img)
    (path : String) (force visualize : Bool) (s : FaceRecognition Emb)
    (h : ¬ skipsLoad s path force) :
    loadPersonsDB V fs path force visualize s =
      match directory_iterator fs path with
      | none => .thrown (loadStart s path)
      | some entries =>
        match loadFolders V visualize path entries (loadStart s path) with
        | .returned s₆ => .returned { s₆ with isDBLoaded := .LOADED }
        | other => other := by
  unfold skipsLoad at h
  unfold loadPersonsDB
  by_cases h₂ : s.dbPath = ""
  · simp [h₂, loadStart, FaceRecognition.setFeaturesMap, FaceRecognition.record]
  · by_cases h₃ : s.dbPath = path
    · have h₄ : ¬ (s.isDBLoaded = .LOADED ∧ force = false) := fun hc => h ⟨hc.1, h₂, h₃, hc.2⟩
      subst h₃
      simp only [h₂, if_false, ne_eq, not_true_eq_false]
      rw [if_neg h₄]
      rfl
    · simp [h₂, h₃, loadStart, FaceRecognition.setFeaturesMap, FaceRecognition.record]

/-- A load pass over a valid tree that is not short-circuited returns with status LOADED and
the registry that the tree describes; the registry log gains the empty registry of the
clearing and then one longer prefix per identity. -/
theorem loadPersonsDB_full_pass {Img Emb : Type} (V : Vision Img Emb) (fs : FileSystem Img)
    (path : String) (force visualize : Bool) (s : FaceRecognition Emb)
    (entries : List (RootEntry Img))
    (hskip : ¬ skipsLoad s path force)
    (hdet : V.detector = true)
    (hroot : directory_iterator fs path = some entries)
    (hvalid : entries.all validRootEntry = true)
    (hnodup : (entries.map RootEntry.name).Nodup) :
    ∃ tr, loadPersonsDB V fs path force visualize s = .returned { s with
      isDBLoaded := .LOADED,
      dbPath := path,
      featuresMap := expectedRegistry V entries,
      featuresMapLog := s.featuresMapLog ++ (expectedRegistry V entries).inits,
      trace := s.trace ++ tr } := by
  obtain ⟨tr, htr⟩ := loadFolders_valid V visualize path hdet entries (loadStart s path)
    hvalid hnodup (by simp [loadStart])
  refine ⟨[.directory_iterator path] ++ tr, ?_⟩
  rw [loadPersonsDB_of_not_skip V fs path force visualize s hskip, hroot]
  simp only [htr]
  rw [inits_eq_nil_cons_tail (expectedRegistry V entries)]
  simp [loadStart]

theorem loadImages_dbPath {Img Emb : Type} (V : Vision Img Emb) (visualize : Bool)
    (dir : String) :
    ∀ (files : List (ImageEntry Img)) (features : List Emb) (s : FaceRecognition Emb)
      (found : List Emb) (s₂ : FaceRecognition Emb),
      loadImages V visualize dir files features s = .returned (found, s₂) →
      s₂.dbPath = s.dbPath := by
  intro files
  induction files with
  | nil =>
    intro features s found s₂ h
    simp only [loadImages, Outcome.returned.injEq, Prod.mk.injEq] at h
    rw [← h.2]
  | cons entry rest ih =>
    intro features s found s₂ h
    cases entry with
    | directory filename => simp [loadImages] at h
    | file filename decoded =>
      rw [loadImages] at h
      split at h
      · exact ih _ _ _ _ h
      · cases decoded with
        | none => simp at h
        | some img =>
          simp only at h
          split at h
          · simp at h
          · rw [ih _ _ _ _ h]
            cases visualize <;> simp [FaceRecognition.record]

theorem loadFolders_dbPath {Img Emb : Type} (V : Vision Img Emb) (visualize : Bool)
    (root : String) :
    ∀ (entries : List (RootEntry Img)) (s s₂ : FaceRecognition Emb),
      loadFolders V visualize root entries s = .returned s₂ → s₂.dbPath = s.dbPath := by
  intro entries
  induction entries with
  | nil =>
    intro s s₂ h
    simp only [loadFolders, Outcome.returned.injEq] at h
    rw [← h]
  | cons entry rest ih =>
    intro s s₂ h
    cases entry with
    | file filename => simp [loadFolders] at h
    | directory personName content =>
      cases content with
      | none => simp [loadFolders] at h
      | some files =>
        rw [loadFolders] at h
        split at h
        · rename_i features s₁ heq
          rw [ih _ _ h]
          have := loadImages_dbPath V visualize _ files [] _ features s₁ heq
          simpa [FaceRecognition.setFeaturesMap, FaceRecognition.record] using this
        · simp at h
        · simp at h

/-- Claim C5: from every prior state, a forced load of a valid tree (identity
subdirectories with distinct names that hold only decodable images and visualisation
outputs, detector set) returns with status LOADED, the path configured, and a registry
that has exactly one key per identity subdirectory, whose value is the in-order
concatenation of the embeddings of its image files; nothing else is in the registry. -/
theorem loadPersonsDB_force_rebuilds {Img Emb : Type} (V : Vision Img Emb)
    (fs : FileSystem Img) (path : String) (visualize : Bool) (s : FaceRecognition Emb)
    (entries : List (RootEntry Img))
    (hdet : V.detector = true)
    (hroot : directory_iterator fs path = some entries)
    (hvalid : entries.all validRootEntry = true)
    (hnodup : (entries.map RootEntry.name).Nodup) :
    ∃ s₁, loadPersonsDB V fs path true visualize s = .returned s₁ ∧
      s₁.isDBLoaded = .LOADED ∧ s₁.dbPath = path ∧
      s₁.featuresMap.Perm (expectedRegistry V entries) ∧
      (s₁.featuresMap.map Prod.fst).Perm (entries.map RootEntry.name) ∧
      (s₁.featuresMap.map Prod.fst).Nodup := by
  obtain ⟨tr, htr⟩ := loadPersonsDB_full_pass V fs path true visualize s entries
    (by simp [skipsLoad]) hdet hroot hvalid hnodup
  refine ⟨_, htr, rfl, rfl, List.Perm.refl _, ?_, ?_⟩
  · show ((expectedRegistry V entries).map Prod.fst).Perm _
    rw [expectedRegistry_keys V entries hvalid]
  · show ((expectedRegistry V entries).map Prod.fst).Nodup
    rw [expectedRegistry_keys V entries hvalid]
    exact hnodup

/-- Witness for C5: an object that is LOADED from another folder, with zoe in its registry,
force-loads the valid tree; afterwards the registry holds alice and bob only. -/
theorem loadPersonsDB_force_rebuilds_witness :
    ∃ s₁, loadPersonsDB testVision (testFileSystem validTree) "db" true false loadedObject
        = .returned s₁ ∧
      s₁.isDBLoaded = .LOADED ∧ s₁.dbPath = "db" ∧
      s₁.featuresMap.Perm (expectedRegistry testVision validTree) ∧
      (s₁.featuresMap.map Prod.fst).Perm (validTree.map RootEntry.name) ∧
      (s₁.featuresMap.map Prod.fst).Nodup :=
  loadPersonsDB_force_rebuilds testVision (testFileSystem validTree) "db" false loadedObject
    validTree (by decide) (by decide) (by decide) (by decide)

/-- Claim C6: after an unforced load of `path` that returned, a second unforced load of the
same path returns the object state unchanged (registry, status LOADED, path, and the trace
of directory walks and extractor calls), whatever the filesystem holds at the second
call. -/
theorem loadPersonsDB_unforced_twice {Img Emb : Type} (V : Vision Img Emb)
    (fs₁ fs₂ : FileSystem Img) (path : String) (visualize₁ visualize₂ : Bool)
    (s s₁ : FaceRecognition Emb)
    (h : loadPersonsDB V fs₁ path false visualize₁ s = .returned s₁) :
    loadPersonsDB V fs₂ path false visualize₂ s₁ = .returned s₁ ∧
      s₁.isDBLoaded = .LOADED ∧ s₁.dbPath = path := by
  have key : s₁.isDBLoaded = .LOADED ∧ s₁.dbPath ≠ "" ∧ s₁.dbPath = path := by
    by_cases hskip : skipsLoad s path false
    · rw [loadPersonsDB_of_skip V fs₁ path false visualize₁ s hskip] at h
      simp only [Outcome.returned.injEq] at h
      subst h
      exact ⟨hskip.1, hskip.2.1, hskip.2.2.1⟩
    · rw [loadPersonsDB_of_not_skip V fs₁ path false visualize₁ s hskip] at h
      have hpath : path ≠ "" := by
        intro hp
        simp [directory_iterator, hp] at h
      split at h
      · simp at h
      · split at h
        · rename_i s₆ heq
          have hdb := loadFolders_dbPath V visualize₁ path _ _ _ heq
          simp only [Outcome.returned.injEq] at h
          subst h
          refine ⟨rfl, ?_, ?_⟩
          · show s₆.dbPath ≠ ""
            rw [hdb]
            exact hpath
          · show s₆.dbPath = path
            rw [hdb]
            rfl
        · rename_i hother
          exact (hother _ h).elim
  exact ⟨loadPersonsDB_of_skip V fs₂ path false visualize₂ s₁ ⟨key.1, key.2.1, key.2.2, rfl⟩,
    key.1, key.2.2⟩

/-- Witness for C6: the first unforced load of the valid tree builds the registry; the
second, against a filesystem in which the folder `db` is gone, changes nothing. -/
theorem loadPersonsDB_unforced_twice_witness :
    loadPersonsDB testVision (testFileSystem validTree) "db" false false freshObject
        = .returned loadedValidTree ∧
      loadPersonsDB testVision ⟨fun _ => none, fun _ => ⟨[], true⟩⟩ "db" false true
        loadedValidTree = .returned loadedValidTree ∧
      loadedValidTree.isDBLoaded = .LOADED ∧ loadedValidTree.dbPath = "db" :=
  ⟨by decide,
   loadPersonsDB_unforced_twice testVision (testFileSystem validTree)
     ⟨fun _ => none, fun _ => ⟨[], true⟩⟩ "db" false true freshObject loadedValidTree
     (by decide)⟩

/-- Claim C7, evaluated on the code: a regular file under the root, an unreadable image and
a nested directory each end the process with `std::exit(1)` in the middle of the pass, with
status LOADING and bob never loaded; only the image without a face is skipped. -/
theorem loadPersonsDB_item_errors :
    (∃ s₁, loadPersonsDB testVision (testFileSystem treeWithRootFile) "db" false false
        freshObject = .exited 1 s₁ ∧
      s₁.isDBLoaded = .LOADING ∧ s₁.featuresMap = [("alice", [1])]) ∧
    (∃ s₁, loadPersonsDB testVision (testFileSystem treeWithUnreadableImage) "db" false false
        freshObject = .exited 1 s₁ ∧
      s₁.isDBLoaded = .LOADING ∧ s₁.featuresMap = []) ∧
    (∃ s₁, loadPersonsDB testVision (testFileSystem treeWithNestedDirectory) "db" false false
        freshObject = .exited 1 s₁ ∧
      s₁.isDBLoaded = .LOADING ∧ s₁.featuresMap = []) ∧
    (∃ s₁, loadPersonsDB testVision (testFileSystem treeWithFacelessImage) "db" false false
        freshObject = .returned s₁ ∧
      s₁.isDBLoaded = .LOADED ∧ s₁.featuresMap = [("alice", []), ("bob", [2])]) :=
  ⟨⟨_, rfl, by decide, by decide⟩, ⟨_, rfl, by decide, by decide⟩,
   ⟨_, rfl, by decide, by decide⟩, ⟨_, rfl, by decide, by decide⟩⟩

/-- Claim C8, as amended: when the root cannot be iterated and the call is not
short-circuited (the short-circuit needs status LOADED, the same non-empty path and
`force = false`), `loadPersonsDB` ends with an exception that reaches the caller; the
status is then LOADING, not LOADED, the registry is empty and the path is configured. -/
theorem loadPersonsDB_missing_root {Img Emb : Type} (V : Vision Img Emb)
    (fs : FileSystem Img) (path : String) (force visualize : Bool) (s : FaceRecognition Emb)
    (hroot : directory_iterator fs path = none)
    (hskip : ¬ (s.isDBLoaded = .LOADED ∧ s.dbPath = path ∧ path ≠ "" ∧ force = false)) :
    ∃ s₁, loadPersonsDB V fs path force visualize s = .thrown s₁ ∧
      s₁.isDBLoaded = .LOADING ∧ s₁.isDBLoaded ≠ .LOADED ∧
      s₁.featuresMap = [] ∧ s₁.dbPath = path := by
  have hns : ¬ skipsLoad s path force := by
    rintro ⟨h₁, h₂, h₃, h₄⟩
    exact hskip ⟨h₁, h₃, h₃ ▸ h₂, h₄⟩
  refine ⟨loadStart s path, ?_, rfl, by simp [loadStart], rfl, rfl⟩
  rw [loadPersonsDB_of_not_skip V fs path force visualize s hns, hroot]

/-- Witness for C8: an object LOADED from the folder `old` is asked, with and without
force, to load the folder `gone`, which does not exist. -/
theorem loadPersonsDB_missing_root_witness :
    directory_iterator (testFileSystem validTree) "gone" = none ∧
      ∃ s₁, loadPersonsDB testVision (testFileSystem validTree) "gone" false false
          loadedObject = .thrown s₁ ∧
        s₁.isDBLoaded = .LOADING ∧ s₁.isDBLoaded ≠ .LOADED ∧
        s₁.featuresMap = [] ∧ s₁.dbPath = "gone" :=
  ⟨by decide,
   loadPersonsDB_missing_root testVision (testFileSystem validTree) "gone" false false
     loadedObject (by decide) (by decide)⟩

/-- Counterexample to C8 as stated: the object is LOADED from the folder `old`, the folder
no longer exists, and `loadPersonsDB("old", force=false)` returns normally without
touching the filesystem; the status stays LOADED. -/
theorem loadPersonsDB_missing_root_counterexample :
    directory_iterator (testFileSystem validTree) "old" = none ∧
      loadPersonsDB testVision (testFileSystem validTree) "old" false false loadedObject
        = .returned loadedObject ∧
      loadedObject.isDBLoaded = .LOADED := by
  decide

/-- Claim C9, as amended: a load pass over a valid tree that is not short-circuited builds the
registry in place.  The values that the registry takes during the pass are, in order, the
empty registry (the clearing at the start) and then the prefixes of the new generation,
one identity longer after each processed subdirectory; the last value, present when the
status becomes LOADED, is the complete new generation. -/
theorem loadPersonsDB_builds_in_place {Img Emb : Type} (V : Vision Img Emb)
    (fs : FileSystem Img) (path : String) (force visualize : Bool) (s : FaceRecognition Emb)
    (entries : List (RootEntry Img))
    (hskip : ¬ skipsLoad s path force)
    (hdet : V.detector = true)
    (hroot : directory_iterator fs path = some entries)
    (hvalid : entries.all validRootEntry = true)
    (hnodup : (entries.map RootEntry.name).Nodup) :
    ∃ s₁, loadPersonsDB V fs path force visualize s = .returned s₁ ∧
      s₁.isDBLoaded = .LOADED ∧
      s₁.featuresMap = expectedRegistry V entries ∧
      s₁.featuresMapLog = s.featuresMapLog ++ (expectedRegistry V entries).inits ∧
      ∀ m ∈ (expectedRegistry V entries).inits, m <+: s₁.featuresMap := by
  obtain ⟨tr, htr⟩ := loadPersonsDB_full_pass V fs path force visualize s entries
    hskip hdet hroot hvalid hnodup
  exact ⟨_, htr, rfl, rfl, rfl, fun m hm => (List.mem_inits _ _).mp hm⟩

/-- Witness for C9: the forced load of the valid tree by an object whose registry holds
zoe. -/
theorem loadPersonsDB_builds_in_place_witness :
    ∃ s₁, loadPersonsDB testVision (testFileSystem validTree) "db" true false loadedObject
        = .returned s₁ ∧
      s₁.isDBLoaded = .LOADED ∧
      s₁.featuresMap = expectedRegistry testVision validTree ∧
      s₁.featuresMapLog
        = loadedObject.featuresMapLog ++ (expectedRegistry testVision validTree).inits ∧
      ∀ m ∈ (expectedRegistry testVision validTree).inits, m <+: s₁.featuresMap :=
  loadPersonsDB_builds_in_place testVision (testFileSystem validTree) "db" true false
    loadedObject validTree (by simp [skipsLoad]) (by decide) (by decide) (by decide)
    (by decide)

/-- Counterexample to C9 as stated: an object whose registry is {zoe:[9]} force-loads the
valid tree.  During the pass the registry is first empty and then {alice:[1]}; neither is
the previous generation {zoe:[9]} nor the new generation {alice:[1], bob:[2]}. -/
theorem loadPersonsDB_builds_in_place_counterexample :
    ∃ s₁, loadPersonsDB testVision (testFileSystem validTree) "db" true false loadedObject
        = .returned s₁ ∧
      loadedObject.featuresMap = [("zoe", [9])] ∧
      s₁.featuresMap = [("alice", [1]), ("bob", [2])] ∧
      s₁.featuresMapLog
        = [[("zoe", [9])], [], [("alice", [1])], [("alice", [1]), ("bob", [2])]] ∧
      ([] : List (String × List Nat)) ≠ loadedObject.featuresMap ∧
      ([] : List (String × List Nat)) ≠ s₁.featuresMap ∧
      [("alice", [1])] ≠ loadedObject.featuresMap ∧
      [("alice", [1])] ≠ s₁.featuresMap :=
  ⟨_, rfl, by decide, by decide, by decide, by decide, by decide, by decide, by decide⟩

/-! ## Theorems: the watcher start-up -/

/-- An already running watcher makes `startWatching` return the object state unchanged: no
interval or baseline is written and no thread is launched. -/
theorem startWatching_running {Img Emb : Type} (fs : FileSystem Img) (interval : Int)
    (s : FaceRecognition Emb) (hpath : s.dbPath ≠ "") (hrun : s.watcherRunning = true) :
    startWatching fs interval s = .returned s := by
  simp [startWatching, hpath, hrun]

/-- Without a configured path `startWatching` ends the process. -/
theorem startWatching_no_path {Img Emb : Type} (fs : FileSystem Img) (interval : Int)
    (s : FaceRecognition Emb) (hpath : s.dbPath = "") :
    startWatching fs interval s = .exited 1 s := by
  simp [startWatching, hpath]

/-- Claim C10, evaluated on the code: on a fresh object, which has no database path,
`startWatching(2)` ends the process with `std::exit(1)` instead of returning; on an object
whose watcher is running it returns the state unchanged and launches no thread. -/
theorem startWatching_preconditions :
    startWatching (testFileSystem validTree) 2 freshObject = .exited 1 freshObject ∧
      startWatching (testFileSystem validTree) 2 watchingObject = .returned watchingObject := by
  decide


/-! ## Theorems: the watcher loop -/

theorem scanStep_le (b : Int) (visited : List ScanEntry) :
    ∀ latest : Int, latest ≤ b →
      (∀ e ∈ visited, e.is_regular_file = true → e.last_write_time ≤ b) →
      visited.foldl
        (fun latestTime entry =>
          if entry.is_regular_file = true ∧ entry.last_write_time > latestTime then
            entry.last_write_time
          else latestTime)
        latest ≤ b := by
  induction visited with
  | nil => intro latest h _; exact h
  | cons e rest ih =>
    intro latest h hall
    rw [List.foldl_cons]
    apply ih
    · split
      · rename_i hc
        exact hall e (List.mem_cons_self _ _) hc.1
      · exact h
    · exact fun x hx => hall x (List.mem_cons_of_mem _ hx)

/-- The scanned time is at most a bound that holds for `file_time_type::min()` and for
every regular file visited. -/
theorem getLatestModTime_le (scan : Scan) (b : Int) (hmin : fileTimeMin ≤ b)
    (hall : ∀ e ∈ scan.visited, e.is_regular_file = true → e.last_write_time ≤ b) :
    getLatestModTime scan ≤ b :=
  scanStep_le b scan.visited fileTimeMin hmin hall

theorem scanStep_ge (visited : List ScanEntry) :
    ∀ latest : Int,
      latest ≤ visited.foldl
        (fun latestTime entry =>
          if entry.is_regular_file = true ∧ entry.last_write_time > latestTime then
            entry.last_write_time
          else latestTime)
        latest ∧
      ∀ e ∈ visited, e.is_regular_file = true →
        e.last_write_time ≤ visited.foldl
          (fun latestTime entry =>
            if entry.is_regular_file = true ∧ entry.last_write_time > latestTime then
              entry.last_write_time
            else latestTime)
          latest := by
  induction visited with
  | nil => intro latest; exact ⟨le_refl _, fun e he => by cases he⟩
  | cons e rest ih =>
    intro latest
    rw [List.foldl_cons]
    by_cases hc : e.is_regular_file = true ∧ e.last_write_time > latest
    · rw [if_pos hc]
      obtain ⟨h₁, h₂⟩ := ih e.last_write_time
      refine ⟨le_trans (le_of_lt hc.2) h₁, ?_⟩
      intro x hx hreg
      rcases List.mem_cons.mp hx with rfl | hx
      · exact h₁
      · exact h₂ x hx hreg
    · rw [if_neg hc]
      obtain ⟨h₁, h₂⟩ := ih latest
      refine ⟨h₁, ?_⟩
      intro x hx hreg
      rcases List.mem_cons.mp hx with rfl | hx
      · have : x.last_write_time ≤ latest := not_lt.mp (fun hlt => hc ⟨hreg, hlt⟩)
        exact le_trans this h₁
      · exact h₂ x hx hreg

/-- The scanned time bounds the modification time of every regular file visited. -/
theorem getLatestModTime_ge (scan : Scan) :
    ∀ e ∈ scan.visited, e.is_regular_file = true →
      e.last_write_time ≤ getLatestModTime scan :=
  (scanStep_ge scan.visited fileTimeMin).2

theorem scanStep_attained (visited : List ScanEntry) :
    ∀ latest : Int,
      visited.foldl
        (fun latestTime entry =>
          if entry.is_regular_file = true ∧ entry.last_write_time > latestTime then
            entry.last_write_time
          else latestTime)
        latest = latest ∨
      ∃ e ∈ visited, e.is_regular_file = true ∧
        e.last_write_time = visited.foldl
          (fun latestTime entry =>
            if entry.is_regular_file = true ∧ entry.last_write_time > latestTime then
              entry.last_write_time
            else latestTime)
          latest := by
  induction visited with
  | nil => intro latest; exact Or.inl rfl
  | cons e rest ih =>
    intro latest
    rw [List.foldl_cons]
    by_cases hc : e.is_regular_file = true ∧ e.last_write_time > latest
    · rw [if_pos hc]
      rcases ih e.last_write_time with h | ⟨x, hx, hreg, hval⟩
      · exact Or.inr ⟨e, List.mem_cons_self _ _, hc.1, h.symm⟩
      · exact Or.inr ⟨x, List.mem_cons_of_mem _ hx, hreg, hval⟩
    · rw [if_neg hc]
      rcases ih latest with h | ⟨x, hx, hreg, hval⟩
      · exact Or.inl h
      · exact Or.inr ⟨x, List.mem_cons_of_mem _ hx, hreg, hval⟩

/-- The scanned time is `file_time_type::min()` or the modification time of a regular file
visited. -/
theorem getLatestModTime_attained (scan : Scan) :
    getLatestModTime scan = fileTimeMin ∨
      ∃ e ∈ scan.visited, e.is_regular_file = true ∧
        e.last_write_time = getLatestModTime scan :=
  scanStep_attained scan.visited fileTimeMin

/-- A cycle whose scanned time does not exceed the baseline only scans. -/
theorem watcherCycle_no_change {Img Emb : Type} (V : Vision Img Emb) (fs : FileSystem Img)
    (s : FaceRecognition Emb) (h : getLatestModTime (fs.scan s.dbPath) ≤ s.lastModTime) :
    watcherCycle V fs s = .returned (s.record (.getLatestModTime s.dbPath)) := by
  unfold watcherCycle
  simp only [FaceRecognition.record]
  rw [if_neg (not_lt.mpr h)]

/-- A cycle whose scanned time exceeds the baseline stores it and makes one forced reload;
an exception of the reload is caught. -/
theorem watcherCycle_change {Img Emb : Type} (V : Vision Img Emb) (fs : FileSystem Img)
    (s : FaceRecognition Emb) (h : getLatestModTime (fs.scan s.dbPath) > s.lastModTime) :
    watcherCycle V fs s =
      match loadPersonsDB V fs s.dbPath true false
        { s.record (.getLatestModTime s.dbPath) with
          lastModTime := getLatestModTime (fs.scan s.dbPath) } with
      | .thrown s₃ => .returned s₃
      | other => other := by
  unfold watcherCycle
  simp only [FaceRecognition.record]
  rw [if_pos h]

/-- A cycle of the running watcher that returns is followed by the next iteration of the
loop. -/
theorem watcherThreadFunc_continues {Img Emb : Type} (V : Vision Img Emb)
    (fs : FileSystem Img) (later : List (FileSystem Img)) (s s₁ : FaceRecognition Emb)
    (hrun : s.watcherRunning = true) (hcycle : watcherCycle V fs s = .returned s₁) :
    watcherThreadFunc V (fs :: later) s = watcherThreadFunc V later s₁ := by
  rw [watcherThreadFunc, if_pos hrun, hcycle]

/-- Claim C11, as amended: in a watcher cycle whose scan ends with a filesystem exception,
and in which no regular file visited before the exception is newer than the baseline (in
particular when nothing was visited), no change is detected: the cycle returns to the
loop, the baseline, the registry, the load status and the running flag are unchanged, and
the only call made is the scan, so no reload is invoked; the loop of the running watcher
goes on with the next wake-up. -/
theorem watcherCycle_failed_scan {Img Emb : Type} (V : Vision Img Emb) (fs : FileSystem Img)
    (s : FaceRecognition Emb)
    (_hfail : (fs.scan s.dbPath).failed = true)
    (hbase : fileTimeMin ≤ s.lastModTime)
    (hold : ∀ e ∈ (fs.scan s.dbPath).visited,
      e.is_regular_file = true → e.last_write_time ≤ s.lastModTime) :
    ∃ s₁, watcherCycle V fs s = .returned s₁ ∧
      s₁.lastModTime = s.lastModTime ∧
      s₁.featuresMap = s.featuresMap ∧
      s₁.featuresMapLog = s.featuresMapLog ∧
      s₁.isDBLoaded = s.isDBLoaded ∧
      s₁.watcherRunning = s.watcherRunning ∧
      s₁.trace = s.trace ++ [.getLatestModTime s.dbPath] ∧
      ∀ later : List (FileSystem Img), s.watcherRunning = true →
        watcherThreadFunc V (fs :: later) s = watcherThreadFunc V later s₁ :=
  ⟨_, watcherCycle_no_change V fs s (getLatestModTime_le _ _ hbase hold),
    rfl, rfl, rfl, rfl, rfl, rfl,
    fun later hrun => watcherThreadFunc_continues V fs later s _ hrun
      (watcherCycle_no_change V fs s (getLatestModTime_le _ _ hbase hold))⟩

/-- Witness for C11: the scan fails before it visits anything; the watching object keeps
its baseline `100` and its registry. -/
theorem watcherCycle_failed_scan_witness :
    failedAtOnceScan.failed = true ∧
      ∃ s₁, watcherCycle testVision (scannedFileSystem validTree failedAtOnceScan)
          watchingObject = .returned s₁ ∧
        s₁.lastModTime = watchingObject.lastModTime ∧
        s₁.featuresMap = watchingObject.featuresMap ∧
        s₁.featuresMapLog = watchingObject.featuresMapLog ∧
        s₁.isDBLoaded = watchingObject.isDBLoaded ∧
        s₁.watcherRunning = watchingObject.watcherRunning ∧
        s₁.trace = watchingObject.trace ++ [.getLatestModTime watchingObject.dbPath] ∧
        ∀ later : List (FileSystem Nat), watchingObject.watcherRunning = true →
          watcherThreadFunc testVision
              (scannedFileSystem validTree failedAtOnceScan :: later) watchingObject
            = watcherThreadFunc testVision later s₁ :=
  ⟨rfl, watcherCycle_failed_scan testVision (scannedFileSystem validTree failedAtOnceScan)
    watchingObject (by decide) (by decide) (by decide)⟩

/-- Counterexample to C11 as stated: the baseline is `100`; the scan visits a regular file
modified at `200` and then ends with a filesystem exception.  `getLatestModTime` catches
the exception and returns `200`, so the cycle sets the baseline to `200` and reloads: the
registry is cleared and rebuilt. -/
theorem watcherCycle_failed_scan_counterexample :
    failingScan.failed = true ∧
      watchingObject.lastModTime = 100 ∧
      getLatestModTime failingScan = 200 ∧
      ∃ s₁, watcherCycle testVision (scannedFileSystem validTree failingScan) watchingObject
          = .returned s₁ ∧
        s₁.lastModTime = 200 ∧
        s₁.featuresMapLog
          = [[("alice", [1])], [], [("alice", [1])], [("alice", [1]), ("bob", [2])]] ∧
        s₁.trace = [.thread, .getLatestModTime "db", .directory_iterator "db",
          .directory_iterator "db/alice", .imread "db/alice/a1.jpg",
          .extractFeatures "db/alice/a1.jpg", .imread "db/alice/a2.jpg",
          .extractFeatures "db/alice/a2.jpg", .directory_iterator "db/bob",
          .imread "db/bob/b1.jpg", .extractFeatures "db/bob/b1.jpg"] :=
  ⟨rfl, rfl, by decide, _, rfl, by decide, by decide, by decide⟩

/-- A cycle whose scanned time exceeds the baseline while the root folder cannot be
iterated: the exception of the reload is caught, and the object is left with the new
baseline, status LOADING and an empty registry. -/
theorem watcherCycle_root_gone {Img Emb : Type} (V : Vision Img Emb) (fs : FileSystem Img)
    (s : FaceRecognition Emb) (h : getLatestModTime (fs.scan s.dbPath) > s.lastModTime)
    (hroot : directory_iterator fs s.dbPath = none) :
    watcherCycle V fs s = .returned (loadStart
      { s.record (.getLatestModTime s.dbPath) with
        lastModTime := getLatestModTime (fs.scan s.dbPath) } s.dbPath) := by
  rw [watcherCycle_change V fs s h]
  have hload := loadPersonsDB_of_not_skip V fs s.dbPath true false
    { s.record (.getLatestModTime s.dbPath) with
      lastModTime := getLatestModTime (fs.scan s.dbPath) } (by simp [skipsLoad])
  rw [hroot] at hload
  have hpath : ({ s.record (.getLatestModTime s.dbPath) with
      lastModTime := getLatestModTime (fs.scan s.dbPath) } : FaceRecognition Emb).dbPath
      = s.dbPath := rfl
  simp only [hpath] at hload ⊢
  rw [hload]

/-- A cycle that detects a change in a tree with a regular file under the root: the reload
ends the process. -/
theorem watcherCycle_root_file :
    ∃ s₁, watcherCycle testVision (scannedFileSystem treeWithRootFile completeScan)
        watchingObject = .exited 1 s₁ ∧ s₁.isDBLoaded = .LOADING :=
  ⟨_, rfl, by decide⟩

/-- Claim C13, as amended: one cycle of the watcher loop, for every state and every scan.
The scanned time `m` bounds the modification time of every regular file visited and is
that of one of them (or `file_time_type::min()`).  When `m` is strictly greater than the
baseline, the cycle is one call `loadPersonsDB(dbPath, true, false)` made with the baseline
set to `m`, with an exception of that call caught; over a valid tree it returns with
baseline `m`, status LOADED and the registry that the tree describes, after exactly one
clearing and rebuild, whatever the status was before; when the root folder cannot be
iterated it returns with baseline `m`, status LOADING and an empty registry.  When `m` is
at most the baseline, the baseline, the registry and the status are unchanged. -/
theorem watcherCycle_step {Img Emb : Type} (V : Vision Img Emb) (fs : FileSystem Img)
    (s : FaceRecognition Emb) :
    ((∀ e ∈ (fs.scan s.dbPath).visited, e.is_regular_file = true →
        e.last_write_time ≤ getLatestModTime (fs.scan s.dbPath)) ∧
      (getLatestModTime (fs.scan s.dbPath) = fileTimeMin ∨
        ∃ e ∈ (fs.scan s.dbPath).visited, e.is_regular_file = true ∧
          e.last_write_time = getLatestModTime (fs.scan s.dbPath))) ∧
    (getLatestModTime (fs.scan s.dbPath) > s.lastModTime →
      watcherCycle V fs s =
        match loadPersonsDB V fs s.dbPath true false
          { s.record (.getLatestModTime s.dbPath) with
            lastModTime := getLatestModTime (fs.scan s.dbPath) } with
        | .thrown s₃ => .returned s₃
        | other => other) ∧
    (∀ entries : List (RootEntry Img),
      getLatestModTime (fs.scan s.dbPath) > s.lastModTime →
      V.detector = true →
      directory_iterator fs s.dbPath = some entries →
      entries.all validRootEntry = true →
      (entries.map RootEntry.name).Nodup →
      ∃ s₁, watcherCycle V fs s = .returned s₁ ∧
        s₁.lastModTime = getLatestModTime (fs.scan s.dbPath) ∧
        s₁.isDBLoaded = .LOADED ∧
        s₁.dbPath = s.dbPath ∧
        s₁.featuresMap.Perm (expectedRegistry V entries) ∧
        s₁.featuresMapLog = s.featuresMapLog ++ (expectedRegistry V entries).inits) ∧
    (getLatestModTime (fs.scan s.dbPath) > s.lastModTime →
      directory_iterator fs s.dbPath = none →
      ∃ s₁, watcherCycle V fs s = .returned s₁ ∧
        s₁.lastModTime = getLatestModTime (fs.scan s.dbPath) ∧
        s₁.isDBLoaded = .LOADING ∧
        s₁.dbPath = s.dbPath ∧
        s₁.featuresMap = [] ∧
        s₁.featuresMapLog = s.featuresMapLog ++ [[]]) ∧
    (getLatestModTime (fs.scan s.dbPath) ≤ s.lastModTime →
      ∃ s₁, watcherCycle V fs s = .returned s₁ ∧
        s₁.lastModTime = s.lastModTime ∧
        s₁.featuresMap = s.featuresMap ∧
        s₁.isDBLoaded = s.isDBLoaded ∧
        s₁.featuresMapLog = s.featuresMapLog ∧
        s₁.trace = s.trace ++ [.getLatestModTime s.dbPath]) := by
  refine ⟨⟨getLatestModTime_ge _, getLatestModTime_attained _⟩,
    watcherCycle_change V fs s, ?_, ?_, ?_⟩
  · intro entries hgt hdet hroot hvalid hnodup
    obtain ⟨tr, htr⟩ := loadPersonsDB_full_pass V fs s.dbPath true false
      { s.record (.getLatestModTime s.dbPath) with
        lastModTime := getLatestModTime (fs.scan s.dbPath) } entries
      (by simp [skipsLoad]) hdet hroot hvalid hnodup
    rw [watcherCycle_change V fs s hgt, htr]
    exact ⟨_, rfl, rfl, rfl, rfl, List.Perm.refl _, rfl⟩
  · intro hgt hroot
    exact ⟨_, watcherCycle_root_gone V fs s hgt hroot, rfl, rfl, rfl, rfl, rfl⟩
  · intro hle
    exact ⟨_, watcherCycle_no_change V fs s hle, rfl, rfl, rfl, rfl, rfl⟩

/-- Witness for C13: with baseline `100` and a complete scan whose newest file is of time
`200` the watching object reloads the valid tree; with baseline `200` nothing changes. -/
theorem watcherCycle_step_witness :
    (∃ s₁, watcherCycle testVision (scannedFileSystem validTree completeScan) watchingObject
        = .returned s₁ ∧
      s₁.lastModTime = getLatestModTime completeScan ∧
      s₁.isDBLoaded = .LOADED ∧
      s₁.dbPath = "db" ∧
      s₁.featuresMap.Perm (expectedRegistry testVision validTree) ∧
      s₁.featuresMapLog
        = watchingObject.featuresMapLog ++ (expectedRegistry testVision validTree).inits) ∧
    (∃ s₁, watcherCycle testVision (scannedFileSystem validTree completeScan) scenarioObject
        = .returned s₁ ∧
      s₁.lastModTime = 200 ∧
      s₁.featuresMap = scenarioRegistry ∧
      s₁.isDBLoaded = .LOADED ∧
      s₁.featuresMapLog = [scenarioRegistry] ∧
      s₁.trace = [.thread, .getLatestModTime "db"]) ∧
    getLatestModTime completeScan = 200 :=
  ⟨(watcherCycle_step testVision (scannedFileSystem validTree completeScan)
      watchingObject).2.2.1 validTree (by decide) (by decide) (by decide) (by decide)
      (by decide),
   (watcherCycle_step testVision (scannedFileSystem validTree completeScan)
      scenarioObject).2.2.2.2 (by decide),
   by decide⟩

/-- Counterexample to C13 as stated: the baseline is `100` and the scan finds the newest
regular file at time `200`, but the root folder cannot be iterated when the reload opens
it.  The cycle sets the baseline to `200` and calls `loadPersonsDB`, whose exception is
caught by the loop: the registry, {alice:[1]} before, is left empty and the status is
LOADING, so the registry afterwards is not a rebuild of a tree. -/
theorem watcherCycle_step_counterexample :
    getLatestModTime completeScan = 200 ∧
      watchingObject.lastModTime = 100 ∧
      watchingObject.featuresMap = [("alice", [1])] ∧
      directory_iterator (removedFolderFileSystem completeScan) watchingObject.dbPath = none ∧
      ∃ s₁, watcherCycle testVision (removedFolderFileSystem completeScan) watchingObject
          = .returned s₁ ∧
        s₁.lastModTime = 200 ∧
        s₁.isDBLoaded = .LOADING ∧
        s₁.featuresMap = [] :=
  ⟨by decide, rfl, rfl, by decide, _,
    watcherCycle_root_gone testVision (removedFolderFileSystem completeScan) watchingObject
      (by decide) (by decide),
    by decide, rfl, rfl⟩

/-! ## Theorems: recognition on a frame -/

/-- The results of `run` are the best matches of the faces found, in order. -/
theorem run_eq_map {Img Emb : Type} (V : Vision Img Emb) (R : Recognizer Emb)
    (s : FaceRecognition Emb) (frame : Option Img) (t : ℚ) (visualize : Bool) :
    run V R s frame t visualize =
      (extractFeatures V frame).map
        (fun faces => faces.map (fun face => (findBestMatch R s.featuresMap face t).bestmatch)) := by
  have key : ∀ (faces : List Emb) (acc : List MatchResult),
      faces.foldl (fun results face =>
        results ++ [(findBestMatch R s.featuresMap face t).bestmatch]) acc
        = acc ++ faces.map (fun face => (findBestMatch R s.featuresMap face t).bestmatch) := by
    intro faces
    induction faces with
    | nil => intro acc; simp
    | cons f rest ih => intro acc; rw [List.foldl_cons, ih]; simp
  unfold run
  cases extractFeatures V frame with
  | none => rfl
  | some faces => simp [key]

/-- The loop of `run_one_face` keeps the first result of greatest score: with the running
best `b` found after `pre` and followed by `mid`, the loop over the remaining results
ends at a result that splits the whole list that way. -/
theorem bestLoop_first_max :
    ∀ (l pre : List MatchResult) (b : MatchResult) (mid : List MatchResult),
      (∀ r ∈ pre, r.score < b.score) → (∀ r ∈ mid, r.score ≤ b.score) →
      ∃ pre₁ best post, pre ++ b :: mid ++ l = pre₁ ++ best :: post ∧
        l.foldl (fun best_match result =>
          if result.score > best_match.score then result else best_match) b = best ∧
        (∀ r ∈ pre₁, r.score < best.score) ∧ (∀ r ∈ post, r.score ≤ best.score) := by
  intro l
  induction l with
  | nil =>
    intro pre b mid hpre hmid
    exact ⟨pre, b, mid, by simp, rfl, hpre, hmid⟩
  | cons x rest ih =>
    intro pre b mid hpre hmid
    rw [List.foldl_cons]
    by_cases hx : x.score > b.score
    · rw [if_pos hx]
      obtain ⟨pre₁, best, post, heq, hbest, h₁, h₂⟩ := ih (pre ++ b :: mid) x []
        (by
          intro r hr
          rcases List.mem_append.mp hr with h | h
          · exact lt_trans (hpre r h) hx
          · rcases List.mem_cons.mp h with rfl | h
            · exact hx
            · exact lt_of_le_of_lt (hmid r h) hx)
        (by intro r hr; cases hr)
      exact ⟨pre₁, best, post, by rw [← heq]; simp, hbest, h₁, h₂⟩
    · rw [if_neg hx]
      obtain ⟨pre₁, best, post, heq, hbest, h₁, h₂⟩ := ih pre b (mid ++ [x]) hpre
        (by
          intro r hr
          rcases List.mem_append.mp hr with h | h
          · exact hmid r h
          · rw [List.mem_singleton.mp h]; exact not_lt.mp hx)
      exact ⟨pre₁, best, post, by rw [← heq]; simp, hbest, h₁, h₂⟩

/-- Claim C12: for the list of per-face best matches that `run` produces, `run_one_face`
returns ("Unknown", 0.0) when the list is empty, and otherwise an element of the list whose
score is at least the score of every element, the first such element: every result before
it has a strictly smaller score. -/
theorem run_one_face_first_max {Img Emb : Type} (V : Vision Img Emb) (R : Recognizer Emb)
    (s : FaceRecognition Emb) (frame : Option Img) (t : ℚ) (visualize : Bool)
    (results : List MatchResult)
    (hrun : run V R s frame t visualize = some results) :
    (results = [] → run_one_face V R s frame t visualize = some ⟨"Unknown", 0⟩) ∧
    (results ≠ [] →
      ∃ pre best post, results = pre ++ best :: post ∧
        run_one_face V R s frame t visualize = some best ∧
        (∀ r ∈ pre, r.score < best.score) ∧
        (∀ r ∈ post, r.score ≤ best.score) ∧
        ∀ r ∈ results, r.score ≤ best.score) := by
  unfold run_one_face
  rw [hrun]
  refine ⟨fun h => by rw [h], ?_⟩
  intro hne
  cases results with
  | nil => exact absurd rfl hne
  | cons first rest =>
    obtain ⟨pre, best, post, heq, hbest, h₁, h₂⟩ :=
      bestLoop_first_max rest [] first [] (by intro r hr; cases hr) (by intro r hr; cases hr)
    refine ⟨pre, best, post, by simpa using heq, ?_, h₁, h₂, ?_⟩
    · simp only [List.foldl_cons, gt_iff_lt, lt_self_iff_false, if_false]
      rw [← hbest]
    · intro r hr
      have hr₂ : r ∈ pre ++ best :: post := by
        rw [← heq]; simpa using hr
      rcases List.mem_append.mp hr₂ with h | h
      · exact le_of_lt (h₁ r h)
      · rcases List.mem_cons.mp h with rfl | h
        · exact le_refl _
        · exact h₂ r h

/-- Witness for C12: a picture with three faces against the scenario registry; the best
matches are ("bob", 0.9), ("Unknown", 0) and ("alice", 0.9), and the first of the two
results of greatest score is returned.  A picture without a face gives
("Unknown", 0.0). -/
theorem run_one_face_first_max_witness :
    run groupVision exactRecognizer scenarioObject (some 3) (6 / 10) false
        = some [⟨"bob", 9 / 10⟩, ⟨"Unknown", 0⟩, ⟨"alice", 9 / 10⟩] ∧
      run_one_face groupVision exactRecognizer scenarioObject (some 3) (6 / 10) false
        = some ⟨"bob", 9 / 10⟩ ∧
      run_one_face groupVision exactRecognizer scenarioObject (some 4) (6 / 10) false
        = some ⟨"Unknown", 0⟩ := by
  have hrun : run groupVision exactRecognizer scenarioObject (some 3) (6 / 10) false
      = some [⟨"bob", 9 / 10⟩, ⟨"Unknown", 0⟩, ⟨"alice", 9 / 10⟩] := by
    norm_num [run, extractFeatures, groupVision, exactRecognizer, scenarioObject,
      scenarioRegistry, findBestMatch, matchStep]
  have hnone : run groupVision exactRecognizer scenarioObject (some 4) (6 / 10) false
      = some [] := by
    norm_num [run, extractFeatures, groupVision]
  refine ⟨hrun, ?_, (run_one_face_first_max groupVision exactRecognizer scenarioObject
    (some 4) (6 / 10) false [] hnone).1 rfl⟩
  obtain ⟨pre, best, post, heq, hbest, h₁, _, _⟩ :=
    (run_one_face_first_max groupVision exactRecognizer scenarioObject (some 3) (6 / 10)
      false _ hrun).2 (by simp)
  rw [hbest]
  cases pre with
  | nil =>
    simp only [List.nil_append, List.cons.injEq] at heq
    rw [← heq.1]
  | cons p pre₂ =>
    simp only [List.cons_append, List.cons.injEq] at heq
    have hp := h₁ p (List.mem_cons_self _ _)
    rw [← heq.1] at hp
    have hle : best.score ≤ 9 / 10 := by
      have hmem : best ∈ [(⟨"Unknown", 0⟩ : MatchResult), ⟨"alice", 9 / 10⟩] := by
        rw [heq.2]; simp
      simp only [List.mem_cons, List.mem_singleton, List.not_mem_nil, or_false] at hmem
      rcases hmem with rfl | rfl <;> norm_num
    exact absurd hp (not_lt.mpr hle)

end FaceRec
